import Mathlib

/-!
# DeezBytes: the bounded directory-size scan and its collector

A shallow embedding of `getDirSize` and `DirectorySizeExporter.Collect` from
`main.go`, together with the parts of the Go runtime they rely on
(`filepath.Walk`, `context.WithTimeout`, a buffered channel of capacity one and
the two-way `select`) and of the metrics library (`MustNewConstMetric`).

Conventions of the embedding.

* Time is an integer number of clock ticks.  Every entry of a directory tree
  carries the number of ticks `dt` that pass between the previous callback and
  the moment the callback of this entry reaches its context check (the cost of
  `lstat`, of reading the directory and of the callback itself).
* A context created by `context.WithTimeout` is its deadline; it is done at
  time `t` exactly when `deadline ≤ t`, and its error is then
  `context.DeadlineExceeded`.
* What the Go scheduler leaves open is a parameter of a scan: the delay before
  the caller first evaluates its `select`, the delay between the end of the walk
  and the send of its result, and the case taken when both cases of the
  `select` are ready.
* A Go `string` is a sequence of bytes; a string written between quotes is
  its UTF-8 encoding.
* `int64` values are integers wrapped into `[-2^63, 2^63)`.
* A `float64` obtained from `float64(int64)` is always an integer; it is
  represented by the integer it denotes (round to nearest, ties to even, 53
  bits of significand).
-/

namespace DeezBytes

/-! ## Data model -/

/-- Error values that reach the scanner: an I/O error of the traversal
(`*fs.PathError` of `os.Lstat` or of reading a directory) or the error of an
expired context. -/
inductive Err where
  | pathError (cause : String)
  | deadlineExceeded
  deriving DecidableEq, Repr

/-- Kinds of directory entries that are not directories. -/
inductive FileKind where
  | regular
  | symlink
  | device
  | namedPipe
  | socket
  deriving DecidableEq, Repr

/-- The part of `os.FileInfo` the scanner can observe: `IsDir()`,
`Mode().IsRegular()` and `Size()`. -/
structure FileInfo where
  isDir : Bool
  isRegular : Bool
  size : Int
  deriving DecidableEq, Repr

/-- A directory tree as `filepath.Walk` meets it.

* `missing dt err`: `os.Lstat` of the entry fails with `err`
  (path not found, entry deleted in the middle of the walk, ...);
* `file dt kind size`: a non-directory entry whose `Lstat` succeeds;
* `dir dt size readErr children`: a directory; `readErr` is the error of
  reading its names (permission denied, ...), `children` are its entries in
  the lexical order in which `Walk` visits them. -/
inductive Node where
  | missing (dt : Nat) (err : Err)
  | file (dt : Nat) (kind : FileKind) (size : Int)
  | dir (dt : Nat) (size : Int) (readErr : Option Err) (children : List Node)
  deriving Repr

/-- A Go `string`: a sequence of bytes, which need not be valid UTF-8 (a YAML
configuration can hold any bytes in a path or a label). -/
structure GoString where
  bytes : List (Fin 256)
  deriving DecidableEq, Repr

/-- The byte with the given value. -/
def byte (n : Nat) : Fin 256 :=
  ⟨n % 256, Nat.mod_lt n (by decide)⟩

/-- The UTF-8 encoding of one Unicode scalar value. -/
def encodeRune (c : Char) : List (Fin 256) :=
  let n := c.toNat
  if n < 128 then [byte n]
  else if n < 2048 then [byte (192 + n / 64), byte (128 + n % 64)]
  else if n < 65536 then
    [byte (224 + n / 4096), byte (128 + n / 64 % 64), byte (128 + n % 64)]
  else
    [byte (240 + n / 262144), byte (128 + n / 4096 % 64), byte (128 + n / 64 % 64),
     byte (128 + n % 64)]

/-- The UTF-8 encoding of a sequence of Unicode scalar values. -/
def encodeRunes : List Char → List (Fin 256)
  | [] => []
  | c :: cs => encodeRune c ++ encodeRunes cs

/-- The Go string written as the given text: its UTF-8 encoding. -/
def str (s : String) : GoString :=
  { bytes := encodeRunes s.data }

/-- Whether a byte lies between two bounds, both included. -/
def inRange (lo hi : Nat) (b : Fin 256) : Bool :=
  decide (lo ≤ b.val) && decide (b.val ≤ hi)

/-- Whether a sequence of bytes is made of well-formed UTF-8 sequences only:
one byte below `0x80`; a lead byte `0xC2..0xDF` and one continuation byte; a
lead byte `0xE0..0xEF` and two continuation bytes (the first at least `0xA0`
after `0xE0`, at most `0x9F` after `0xED`); a lead byte `0xF0..0xF4` and three
continuation bytes (the first at least `0x90` after `0xF0`, at most `0x8F`
after `0xF4`). -/
def validBytes : List (Fin 256) → Bool
  | [] => true
  | b0 :: rest =>
      if b0.val < 128 then validBytes rest
      else
        match rest with
        | [] => false
        | b1 :: rest1 =>
            if inRange 194 223 b0 then inRange 128 191 b1 && validBytes rest1
            else
              match rest1 with
              | [] => false
              | b2 :: rest2 =>
                  if b0.val = 224 then
                    inRange 160 191 b1 && inRange 128 191 b2 && validBytes rest2
                  else if inRange 225 236 b0 || inRange 238 239 b0 then
                    inRange 128 191 b1 && inRange 128 191 b2 && validBytes rest2
                  else if b0.val = 237 then
                    inRange 128 159 b1 && inRange 128 191 b2 && validBytes rest2
                  else
                    match rest2 with
                    | [] => false
                    | b3 :: rest3 =>
                        if b0.val = 240 then
                          inRange 144 191 b1 && inRange 128 191 b2 && inRange 128 191 b3 &&
                            validBytes rest3
                        else if inRange 241 243 b0 then
                          inRange 128 191 b1 && inRange 128 191 b2 && inRange 128 191 b3 &&
                            validBytes rest3
                        else if b0.val = 244 then
                          inRange 128 143 b1 && inRange 128 191 b2 && inRange 128 191 b3 &&
                            validBytes rest3
                        else false

/-- The test `utf8.ValidString(s)` of the Go standard library. -/
def ValidString (s : GoString) : Bool :=
  validBytes s.bytes

/-- The struct `Directory` with its fields `Path` and `Label`. -/
structure Directory where
  Path : GoString
  Label : GoString
  deriving DecidableEq, Repr

/-- One gauge sample sent on the metrics channel by `Collect`, as made by
`MustNewConstMetric(e.desc, GaugeValue, size, dir.Label)`: the value of the
label `name` and the value of the gauge. -/
structure Observation where
  label : GoString
  value : Int
  deriving DecidableEq, Repr

/-- The fields of `DirectorySizeExporter` that `Collect` reads
(`desc` and `logger` do not influence the samples). -/
structure DirectorySizeExporter where
  directories : List Directory
  timeout : Int
  deriving Repr

/-- The constructor `NewDirectorySizeExporter(dirs, timeout, logger)`. -/
def NewDirectorySizeExporter (dirs : List Directory) (timeout : Int) :
    DirectorySizeExporter :=
  { directories := dirs, timeout := timeout }

/-! ## Machine arithmetic -/

/-- Two's complement wrap of an integer into the `int64` range. -/
def wrapInt64 (x : Int) : Int :=
  (x + 9223372036854775808) % 18446744073709551616 - 9223372036854775808

/-- Number of low bits that do not fit into a 53 bit significand
(`fuel` bounds the search; 64 is enough for every `int64`). -/
def dropBits : Nat → Nat → Nat
  | 0, _ => 0
  | fuel + 1, n => if n < 9007199254740992 then 0 else dropBits fuel (n / 2) + 1

/-- Round a natural number to the nearest `float64`, ties to even. -/
def roundNat (n : Nat) : Nat :=
  let e := dropBits 64 n
  let q := n / 2 ^ e
  let r := n % 2 ^ e
  let up := decide (2 ^ e < 2 * r) || (decide (2 * r = 2 ^ e) && decide (q % 2 = 1))
  (if up then q + 1 else q) * 2 ^ e

/-- The conversion `float64(total)` of an `int64`. -/
def float64OfInt64 (x : Int) : Int :=
  if 0 ≤ x then (roundNat x.toNat : Int) else -(roundNat (-x).toNat : Int)

/-! ## Contexts -/

/-- A context made by `context.WithTimeout(context.Background(), d)`. -/
structure Context where
  deadline : Int
  deriving DecidableEq, Repr

/-- The call `context.WithTimeout(context.Background(), timeout)` made at time `now`. -/
def WithTimeout (now timeout : Int) : Context :=
  { deadline := now + timeout }

/-- Whether `ctx.Done()` is ready (closed) at time `t`. -/
def Context.Done (ctx : Context) (t : Int) : Bool :=
  decide (ctx.deadline ≤ t)

/-- The value of `ctx.Err()` at time `t`. -/
def Context.Err (ctx : Context) (t : Int) : Option Err :=
  if ctx.Done t then some Err.deadlineExceeded else none

/-! ## `filepath.Walk` -/

/-- The arguments `(info, err)` of one call of the walk callback, with the
ticks that pass before its context check. -/
inductive Visit where
  | ok (dt : Nat) (info : FileInfo)
  | failed (dt : Nat) (err : Err)
  deriving DecidableEq, Repr

mutual
/-- The recursive `walk` of `path/filepath`: a non-directory is handed to the
callback; for a directory the names are read, the callback is called with the
directory (and the read error, in which case its result is returned), and then
every child is walked until one returns an error. -/
def walk {σ : Type} (fn : σ → Visit → σ × Option Err) : σ → Node → σ × Option Err
  | st, .missing dt err => fn st (.failed dt err)
  | st, .file dt kind size =>
      fn st (.ok dt { isDir := false, isRegular := decide (kind = .regular), size := size })
  | st, .dir dt _ (some err) _ => fn st (.failed dt err)
  | st, .dir dt size none children =>
      match fn st (.ok dt { isDir := true, isRegular := false, size := size }) with
      | (st1, some err) => (st1, some err)
      | (st1, none) => walkList fn st1 children
/-- The loop over the names of a directory inside `walk`. -/
def walkList {σ : Type} (fn : σ → Visit → σ × Option Err) : σ → List Node → σ × Option Err
  | st, [] => (st, none)
  | st, c :: cs =>
      match walk fn st c with
      | (st1, some err) => (st1, some err)
      | (st1, none) => walkList fn st1 cs
end

/-- The entry point `filepath.Walk(root, fn)`: `Lstat` the root; on failure call the callback
with the error, otherwise `walk`.  (`SkipDir` and `SkipAll` are never returned
by the callback of `getDirSize`, so their filtering is the identity.) -/
def Walk {σ : Type} (fn : σ → Visit → σ × Option Err) (st : σ) (root : Node) :
    σ × Option Err :=
  walk fn st root

/-! ## The scanner -/

/-- The variables the walking goroutine of `getDirSize` works on: the captured
`total`, the clock, and the number of callback calls made so far. -/
structure ScanState where
  total : Int
  now : Int
  visited : Nat
  deriving DecidableEq, Repr

/-- The callback handed to `filepath.Walk` by `getDirSize`:
an entry error is returned as it is; otherwise the size of a non-directory is
added to `total` (an `int64`), and the context is polled: its error is returned
when it is done, `nil` otherwise. -/
def walkFn (ctx : Context) (st : ScanState) : Visit → ScanState × Option Err
  | .failed dt err =>
      ({ st with now := st.now + dt, visited := st.visited + 1 }, some err)
  | .ok dt info =>
      let total := if !info.isDir then wrapInt64 (st.total + info.size) else st.total
      let now := st.now + dt
      ({ total := total, now := now, visited := st.visited + 1 },
        if ctx.Done now then ctx.Err now else none)

/-- A channel of errors: its capacity and its buffered values. -/
structure Chan where
  cap : Nat
  buf : List (Option Err)
  deriving DecidableEq, Repr

/-- The channel made by `make(chan error, cap)`. -/
def Chan.make (cap : Nat) : Chan :=
  { cap := cap, buf := [] }

/-- A send on the channel: it completes when a receiver is waiting or when the
buffer has room; otherwise (`none`) the sender stays blocked. -/
def Chan.send (c : Chan) (receiverWaiting : Bool) (v : Option Err) : Option Chan :=
  if receiverWaiting then some c
  else if c.buf.length < c.cap then some { c with buf := c.buf ++ [v] }
  else none

/-- What the walking goroutine has done when it ends: its variables, the error
returned by `filepath.Walk`, and the channel after `walkErrChan <- err`
(`none` if that send never completes). -/
structure WalkerRun where
  state : ScanState
  result : Option Err
  chan : Option Chan
  deriving DecidableEq, Repr

/-- The goroutine started by `getDirSize`: walk `root` from time `start`, then
send the error of the walk on the channel `make(chan error, 1)`. -/
def walker (ctx : Context) (start : Int) (root : Node) (receiverWaiting : Bool) :
    WalkerRun :=
  let r := Walk (walkFn ctx) { total := 0, now := start, visited := 0 } root
  { state := r.1, result := r.2, chan := (Chan.make 1).send receiverWaiting r.2 }

/-- The scheduling choices left open by the Go runtime for one scan:
`selectLag` ticks pass before the caller first evaluates its `select`,
`sendLag` ticks pass between the return of `filepath.Walk` in the walking
goroutine and its send on the channel, and `pickDone` is the case chosen when
both cases of the `select` are ready. -/
structure Sched where
  selectLag : Nat
  sendLag : Nat
  pickDone : Bool
  deriving DecidableEq, Repr

/-- The surroundings of one scan: the file system (the tree found under each
path), the scheduling choices, and the ticks the caller spends in the loop body
after the scan (logging, sending the sample). -/
structure ScanEnv where
  fs : GoString → Node
  sched : Sched
  idle : Nat

/-- The time at which the walking goroutine sends its result. -/
def sendTime (ctx : Context) (start : Int) (root : Node) (sch : Sched) : Int :=
  (Walk (walkFn ctx) { total := 0, now := start, visited := 0 } root).1.now + sch.sendLag

/-- The time at which the `select` of `getDirSize` is resolved: the caller
reaches it `selectLag` ticks after the start and waits there until the first of
the deadline and the send of the walker. -/
def selectTime (ctx : Context) (start : Int) (root : Node) (sch : Sched) : Int :=
  max (start + sch.selectLag) (min ctx.deadline (sendTime ctx start root sch))

/-- Whether the `select` of `getDirSize` takes the case `<-ctx.Done()`:
when only one case is ready it is taken, when both are the scheduler chooses. -/
def selectsDone (ctx : Context) (start : Int) (root : Node) (sch : Sched) : Bool :=
  let at_ := selectTime ctx start root sch
  let chanReady := decide (sendTime ctx start root sch ≤ at_)
  ctx.Done at_ && (!chanReady || sch.pickDone)

/-- What a call of `getDirSize` returns, and when. -/
structure ScanReturn where
  size : Int
  err : Option Err
  returnedAt : Int
  deriving DecidableEq, Repr

/-- The function `getDirSize(ctx, path)`, called at time `start`: it starts the
walking goroutine and resolves the `select` between `ctx.Done()` and the channel
of the walker; on the first case it returns `0, ctx.Err()`, on the second
`0, err` when the walk failed and `float64(total), nil` otherwise. -/
def getDirSize (env : ScanEnv) (start : Int) (ctx : Context) (path : GoString) :
    ScanReturn :=
  let root := env.fs path
  let at_ := selectTime ctx start root env.sched
  if selectsDone ctx start root env.sched then
    { size := 0, err := ctx.Err at_, returnedAt := at_ }
  else
    let w := walker ctx start root true
    match w.result with
    | some err => { size := 0, err := some err, returnedAt := at_ }
    | none => { size := float64OfInt64 w.state.total, err := none, returnedAt := at_ }

/-! ## The collector -/

/-- The library call `prometheus.NewConstMetric(e.desc, prometheus.GaugeValue,
value, label)` for the descriptor made by `NewDirectorySizeExporter`, which is
free of errors and has the single variable label `name`: one label value is
given for one label name, so the call fails exactly when the label value is not
valid UTF-8 (`none`), and otherwise makes the sample. -/
def NewConstMetric (value : Int) (label : GoString) : Option Observation :=
  if ValidString label then some { label := label, value := value } else none

/-- One iteration of the loop of `Collect`: when it started, the context it
made, what `getDirSize` returned and the sample it sent; `sample` is `none`
when `MustNewConstMetric` panicked, in which case nothing was sent. -/
structure ScanRecord where
  startedAt : Int
  ctx : Context
  ret : ScanReturn
  sample : Option Observation
  deriving DecidableEq, Repr

/-- The loop of `Collect` from iteration `i` on, started at time `now`: the
iterations it runs, in order.  `MustNewConstMetric` panics when
`NewConstMetric` fails; the panic ends the loop in that iteration. -/
def collectLoop (timeout : Int) (env : Nat → ScanEnv) :
    Nat → Int → List Directory → List ScanRecord
  | _, _, [] => []
  | i, now, dir :: rest =>
      let ctx := WithTimeout now timeout
      let r := getDirSize (env i) now ctx dir.Path
      let size := if r.err.isSome then 0 else r.size
      match NewConstMetric size dir.Label with
      | none => [{ startedAt := now, ctx := ctx, ret := r, sample := none }]
      | some m =>
          { startedAt := now, ctx := ctx, ret := r, sample := some m } ::
            collectLoop timeout env (i + 1) (r.returnedAt + (env i).idle) rest

/-- What a call of `Collect` has done when it ends: the samples it sent on the
metrics channel, in the order sent, and whether it ended by a panic. -/
structure CollectRun where
  sent : List Observation
  panicked : Bool
  deriving DecidableEq, Repr

/-- The method `Collect`; iteration `i` of its loop runs in the surroundings
`env i`. -/
def DirectorySizeExporter.Collect (e : DirectorySizeExporter) (env : Nat → ScanEnv)
    (start : Int) : CollectRun :=
  let rs := collectLoop e.timeout env 0 start e.directories
  { sent := rs.filterMap ScanRecord.sample,
    panicked := rs.any (fun r => r.sample.isNone) }

/-! ## Walk order and what a tree holds -/

mutual
/-- The entries `filepath.Walk` hands to a callback that never returns an
error, in the order of the calls: a directory before its children, the children
from first to last; the children of a directory that cannot be read are not
reached. -/
def walkOrder : Node → List Visit
  | .missing dt err => [.failed dt err]
  | .file dt kind size =>
      [.ok dt { isDir := false, isRegular := decide (kind = .regular), size := size }]
  | .dir dt _ (some err) _ => [.failed dt err]
  | .dir dt size none children =>
      .ok dt { isDir := true, isRegular := false, size := size } :: walkOrderList children
/-- Walk order of the children of a directory. -/
def walkOrderList : List Node → List Visit
  | [] => []
  | c :: cs => walkOrder c ++ walkOrderList cs
end

/-- Run a callback over a sequence of visits until it returns an error. -/
def runVisits {σ : Type} (fn : σ → Visit → σ × Option Err) : σ → List Visit → σ × Option Err
  | st, [] => (st, none)
  | st, v :: vs =>
      match fn st v with
      | (st1, some err) => (st1, some err)
      | (st1, none) => runVisits fn st1 vs

mutual
/-- Sum of the byte lengths of the regular files reachable from the root. -/
def regularBytes : Node → Int
  | .missing _ _ => 0
  | .file _ kind size => if kind = .regular then size else 0
  | .dir _ _ (some _) _ => 0
  | .dir _ _ none children => regularBytesList children
/-- Sum of `regularBytes` over the children of a directory. -/
def regularBytesList : List Node → Int
  | [] => 0
  | c :: cs => regularBytes c + regularBytesList cs
end

mutual
/-- Sum of `Size()` over every reachable entry that is not a directory
(regular files, symbolic links, devices, pipes, sockets). -/
def nonDirBytes : Node → Int
  | .missing _ _ => 0
  | .file _ _ size => size
  | .dir _ _ (some _) _ => 0
  | .dir _ _ none children => nonDirBytesList children
/-- Sum of `nonDirBytes` over the children of a directory. -/
def nonDirBytesList : List Node → Int
  | [] => 0
  | c :: cs => nonDirBytes c + nonDirBytesList cs
end

mutual
/-- No reachable entry fails its `Lstat` and every reachable directory can be
read. -/
def errorFree : Node → Bool
  | .missing _ _ => false
  | .file _ _ _ => true
  | .dir _ _ (some _) _ => false
  | .dir _ _ none children => errorFreeList children
/-- Every child is `errorFree`. -/
def errorFreeList : List Node → Bool
  | [] => true
  | c :: cs => errorFree c && errorFreeList cs
end

mutual
/-- Every reachable entry that is not a directory is a regular file. -/
def onlyRegular : Node → Bool
  | .missing _ _ => true
  | .file _ kind _ => decide (kind = .regular)
  | .dir _ _ (some _) _ => true
  | .dir _ _ none children => onlyRegularList children
/-- Every child is `onlyRegular`. -/
def onlyRegularList : List Node → Bool
  | [] => true
  | c :: cs => onlyRegular c && onlyRegularList cs
end

/-- Ticks a visit takes. -/
def Visit.dt : Visit → Nat
  | .ok dt _ => dt
  | .failed dt _ => dt

/-- The I/O error a visit carries, if any. -/
def Visit.err : Visit → Option Err
  | .ok _ _ => none
  | .failed _ err => some err

/-- Bytes the callback adds to `total` for a visit. -/
def Visit.bytes : Visit → Int
  | .ok _ info => if info.isDir then 0 else info.size
  | .failed _ _ => 0

/-- Ticks a sequence of visits takes. -/
def ticks (vs : List Visit) : Nat :=
  (vs.map Visit.dt).sum

/-- Ticks a complete walk of the tree takes. -/
def walkTicks (t : Node) : Nat :=
  ticks (walkOrder t)

/-- Total of the bytes the callback adds for a sequence of visits. -/
def bytesOf (vs : List Visit) : Int :=
  (vs.map Visit.bytes).sum

/-! ## Concrete trees and surroundings used as examples -/

/-- A directory holding a regular file of 3 bytes and a symbolic link whose
`Lstat` size is 7. -/
def linkTree : Node :=
  .dir 1 4096 none [.file 1 .regular 3, .file 1 .symlink 7]

/-- Surroundings in which `/data` is `linkTree`. -/
def linkEnv : ScanEnv :=
  { fs := fun _ => linkTree,
    sched := { selectLag := 0, sendLag := 0, pickDone := true }, idle := 0 }

/-- Surroundings in which `/data` is one regular file of `2^53 + 1` bytes. -/
def hugeEnv : ScanEnv :=
  { fs := fun _ => .file 1 .regular 9007199254740993,
    sched := { selectLag := 0, sendLag := 0, pickDone := true }, idle := 0 }

/-- The tree of the end-to-end example: regular files of 1000 and 24 bytes. -/
def exampleTree : Node :=
  .dir 1 4096 none [.file 1 .regular 1000, .dir 1 4096 none [.file 1 .regular 24]]

/-- The file system of the end-to-end example: `/tmp/a` exists, nothing else
does. -/
def exampleFs : GoString → Node := fun p =>
  if p = str "/tmp/a" then exampleTree
  else .missing 1 (.pathError "lstat: no such file or directory")

/-- Surroundings of the end-to-end example, the same for every iteration. -/
def exampleEnv : Nat → ScanEnv := fun _ =>
  { fs := exampleFs,
    sched := { selectLag := 0, sendLag := 0, pickDone := true }, idle := 1 }

/-- A directory whose two files each take five ticks to reach. -/
def slowTree : Node :=
  .dir 1 4096 none [.file 5 .regular 1000, .file 5 .regular 24]

/-- Surroundings in which every path is `slowTree`. -/
def slowEnv : Nat → ScanEnv := fun _ =>
  { fs := fun _ => slowTree,
    sched := { selectLag := 0, sendLag := 0, pickDone := false }, idle := 1 }

/-- Surroundings in which no path exists, the caller reaches its `select` five
ticks after the start, and the `select` takes the result of the walker when
both cases are ready. -/
def lateEnv : ScanEnv :=
  { fs := fun _ => .missing 1 (.pathError "lstat /tmp/missing: no such file or directory"),
    sched := { selectLag := 5, sendLag := 0, pickDone := false }, idle := 0 }

/-- Surroundings in which every path is a single regular file of 42 bytes, the
walker needs two ticks after its walk to send the result, the caller reaches its
`select` nine ticks after the start, and the `select` takes the result of the
walker when both cases are ready. -/
def lateFileEnv : ScanEnv :=
  { fs := fun _ => .file 1 .regular 42,
    sched := { selectLag := 9, sendLag := 2, pickDone := false }, idle := 0 }

/-- The only iteration of `Collect` on the target `/srv/f` in the surroundings
`lateFileEnv` with a timeout of two ticks. -/
def lateFileRecord : ScanRecord :=
  { startedAt := 0, ctx := { deadline := 2 },
    ret := { size := 42, err := none, returnedAt := 9 },
    sample := some { label := str "f", value := 42 } }

/-- A directory whose second entry disappears before it is reached. -/
def brokenTree : Node :=
  .dir 1 4096 none
    [.file 1 .regular 10, .missing 1 (.pathError "lstat /srv/b: no such file or directory"),
     .file 1 .regular 5]

/-- Surroundings in which every path is `brokenTree`. -/
def brokenEnv : ScanEnv :=
  { fs := fun _ => brokenTree,
    sched := { selectLag := 0, sendLag := 0, pickDone := true }, idle := 0 }

/-- A label that is not valid UTF-8: the single byte `0xFF` (in a YAML
configuration, `!!binary /w==`). -/
def badLabel : GoString :=
  { bytes := [byte 255] }

/-- Surroundings in which every path is `brokenTree` and the caller reaches its
`select` twenty ticks after the start, where it takes the case `<-ctx.Done()`
when both cases are ready. -/
def brokenLateEnv : ScanEnv :=
  { fs := fun _ => brokenTree,
    sched := { selectLag := 20, sendLag := 0, pickDone := true }, idle := 0 }

/-- Surroundings in which every path is `brokenTree` and the walker needs twenty
ticks after its walk to send the result. -/
def brokenSlowSendEnv : ScanEnv :=
  { fs := fun _ => brokenTree,
    sched := { selectLag := 0, sendLag := 20, pickDone := false }, idle := 0 }

/-- Surroundings in which every path is a single regular file of 42 bytes and
the `select` takes the result of the walker whenever it is ready. -/
def fileEnv : ScanEnv :=
  { fs := fun _ => .file 1 .regular 42,
    sched := { selectLag := 9, sendLag := 0, pickDone := false }, idle := 0 }

/-! ## Lemmas -/

theorem runVisits_append {σ : Type} (fn : σ → Visit → σ × Option Err) :
    ∀ (xs ys : List Visit) (st : σ),
      runVisits fn st (xs ++ ys) =
        match runVisits fn st xs with
        | (st1, some err) => (st1, some err)
        | (st1, none) => runVisits fn st1 ys
  | [], ys, st => by simp [runVisits]
  | x :: xs, ys, st => by
      simp only [List.cons_append, runVisits]
      rcases h : fn st x with ⟨st1, _ | err⟩
      · simpa using runVisits_append fn xs ys st1
      · simp

mutual
theorem walk_eq_runVisits {σ : Type} (fn : σ → Visit → σ × Option Err) :
    ∀ (t : Node) (st : σ), walk fn st t = runVisits fn st (walkOrder t)
  | .missing dt err, st => by
      simp only [walk, walkOrder, runVisits]
      rcases fn st (.failed dt err) with ⟨st1, _ | e⟩ <;> rfl
  | .file dt kind size, st => by
      simp only [walk, walkOrder, runVisits]
      rcases fn st (.ok dt _) with ⟨st1, _ | e⟩ <;> rfl
  | .dir dt size (some err) children, st => by
      simp only [walk, walkOrder, runVisits]
      rcases fn st (.failed dt err) with ⟨st1, _ | e⟩ <;> rfl
  | .dir dt size none children, st => by
      simp only [walk, walkOrder, runVisits]
      rcases fn st (.ok dt _) with ⟨st1, _ | e⟩
      · exact walkList_eq_runVisits fn children st1
      · rfl
theorem walkList_eq_runVisits {σ : Type} (fn : σ → Visit → σ × Option Err) :
    ∀ (cs : List Node) (st : σ), walkList fn st cs = runVisits fn st (walkOrderList cs)
  | [], st => by simp [walkList, walkOrderList, runVisits]
  | c :: cs, st => by
      simp only [walkList, walkOrderList, runVisits_append]
      rw [walk_eq_runVisits fn c st]
      rcases runVisits fn st (walkOrder c) with ⟨st1, _ | e⟩
      · exact walkList_eq_runVisits fn cs st1
      · rfl
end

theorem ticks_nil : ticks [] = 0 := rfl

theorem ticks_cons (v : Visit) (vs : List Visit) : ticks (v :: vs) = v.dt + ticks vs := by
  simp [ticks]

theorem ticks_append (xs ys : List Visit) : ticks (xs ++ ys) = ticks xs + ticks ys := by
  simp [ticks]

theorem bytesOf_cons (v : Visit) (vs : List Visit) :
    bytesOf (v :: vs) = v.bytes + bytesOf vs := by
  simp [bytesOf]

theorem bytesOf_append (xs ys : List Visit) : bytesOf (xs ++ ys) = bytesOf xs + bytesOf ys := by
  simp [bytesOf]

theorem wrapInt64_add_wrap (a b : Int) : wrapInt64 (wrapInt64 a + b) = wrapInt64 (a + b) := by
  unfold wrapInt64
  omega

theorem wrapInt64_idem (a : Int) : wrapInt64 (wrapInt64 a) = wrapInt64 a := by
  unfold wrapInt64
  omega

theorem wrapInt64_of_range (a : Int) (h0 : -9223372036854775808 ≤ a)
    (h1 : a < 9223372036854775808) : wrapInt64 a = a := by
  unfold wrapInt64
  omega

theorem dropBits_small (fuel n : Nat) (h : n < 9007199254740992) : dropBits fuel n = 0 := by
  cases fuel with
  | zero => rfl
  | succ k => simp [dropBits, h]

theorem roundNat_small (n : Nat) (h : n < 9007199254740992) : roundNat n = n := by
  simp [roundNat, dropBits_small 64 n h, Nat.mod_one]

theorem float64OfInt64_exact (x : Int) (h0 : 0 ≤ x) (h1 : x < 9007199254740992) :
    float64OfInt64 x = x := by
  have hn : x.toNat < 9007199254740992 := by omega
  simp [float64OfInt64, h0, roundNat_small _ hn]

/-- The callback on an entry without error. -/
theorem walkFn_ok (ctx : Context) (st : ScanState) (dt : Nat) (info : FileInfo) :
    walkFn ctx st (.ok dt info) =
      ({ total := if info.isDir then st.total else wrapInt64 (st.total + info.size),
         now := st.now + dt, visited := st.visited + 1 },
        if ctx.deadline ≤ st.now + dt then some Err.deadlineExceeded else none) := by
  cases hd : info.isDir <;> by_cases hc : ctx.deadline ≤ st.now + (dt : Int) <;>
    simp [walkFn, Context.Done, Context.Err, hd, hc]

/-- A walk over entries without error that ends before the deadline visits all
of them, adds their bytes and returns no error. -/
theorem runVisits_ok (ctx : Context) :
    ∀ (vs : List Visit) (st : ScanState), (∀ v ∈ vs, v.err = none) →
      st.now + ticks vs < ctx.deadline → wrapInt64 st.total = st.total →
      runVisits (walkFn ctx) st vs =
        ({ total := wrapInt64 (st.total + bytesOf vs), now := st.now + ticks vs,
           visited := st.visited + vs.length }, none)
  | [], st, _, _, hw => by
      simp [runVisits, ticks, bytesOf, hw]
  | .failed dt err :: vs, st, hok, _, _ => by
      have := hok (.failed dt err) (by simp)
      simp [Visit.err] at this
  | .ok dt info :: vs, st, hok, ht, hw => by
      rw [ticks_cons] at ht
      simp only [Visit.dt] at ht
      have hnd : ¬ ctx.deadline ≤ st.now + (dt : Int) := by
        have : (0 : Int) ≤ (ticks vs : Int) := Int.ofNat_nonneg _
        omega
      simp only [runVisits, walkFn_ok, hnd, if_false]
      rw [runVisits_ok ctx vs _ (fun v hv => hok v (by simp [hv]))
        (by simp only [Nat.cast_add] at ht ⊢; omega)
        (by cases info.isDir <;> simp [hw, wrapInt64_idem])]
      simp only [ticks_cons, bytesOf_cons, Visit.dt, Visit.bytes, List.length_cons]
      cases info.isDir
      · simp only [Bool.false_eq_true, if_false, wrapInt64_add_wrap]
        congr 2
        · congr 1; ring
        · push_cast; ring
        · ring
      · simp only [if_true]
        congr 2
        · congr 1; ring
        · push_cast; ring
        · ring

/-- A walk whose first entry error comes after error-free entries, all of them
checked before the deadline, stops at that entry with its error. -/
theorem runVisits_stop (ctx : Context) (pre post : List Visit) (dt : Nat) (err : Err)
    (st : ScanState) (hok : ∀ v ∈ pre, v.err = none)
    (ht : st.now + ticks pre < ctx.deadline) (hw : wrapInt64 st.total = st.total) :
    runVisits (walkFn ctx) st (pre ++ .failed dt err :: post) =
      ({ total := wrapInt64 (st.total + bytesOf pre), now := st.now + ticks pre + dt,
         visited := st.visited + pre.length + 1 }, some err) := by
  rw [runVisits_append, runVisits_ok ctx pre st hok ht hw]
  simp [runVisits, walkFn]

/-- A walk that returns no error met no entry error, and the context was not
done at its last check. -/
theorem runVisits_none (ctx : Context) :
    ∀ (vs : List Visit) (st : ScanState),
      (runVisits (walkFn ctx) st vs).2 = none →
      (∀ v ∈ vs, v.err = none) ∧ (vs ≠ [] → st.now + ticks vs < ctx.deadline) ∧
        (runVisits (walkFn ctx) st vs).1.now = st.now + ticks vs
  | [], st, _ => by simp [runVisits, ticks]
  | .failed dt err :: vs, st, h => by
      simp [runVisits, walkFn] at h
  | .ok dt info :: vs, st, h => by
      simp only [runVisits, walkFn_ok] at h ⊢
      by_cases hd : ctx.deadline ≤ st.now + (dt : Int)
      · simp [hd] at h
      · simp only [hd, if_false] at h ⊢
        obtain ⟨h1, h2, h3⟩ := runVisits_none ctx vs _ h
        refine ⟨?_, ?_, ?_⟩
        · intro v hv
          rcases List.mem_cons.mp hv with rfl | hv
          · rfl
          · exact h1 v hv
        · intro _
          rw [ticks_cons]
          simp only [Visit.dt]
          by_cases hvs : vs = []
          · subst hvs
            simp only [ticks_nil]
            push_cast
            omega
          · have := h2 hvs
            simp only at this
            push_cast
            omega
        · rw [h3, ticks_cons]
          simp only [Visit.dt]
          push_cast
          ring

/-- Once the context is done at the check of the entry of index `k`, the walk
returns an error and has made at most `k + 1` callback calls. -/
theorem runVisits_done (ctx : Context) :
    ∀ (k : Nat) (vs : List Visit) (st : ScanState), k < vs.length →
      ctx.deadline ≤ st.now + ticks (vs.take (k + 1)) →
      (runVisits (walkFn ctx) st vs).2 ≠ none ∧
        (runVisits (walkFn ctx) st vs).1.visited ≤ st.visited + (k + 1)
  | _, [], _, hk, _ => by simp at hk
  | k, .failed dt err :: vs, st, _, _ => by
      simp [runVisits, walkFn]
  | 0, .ok dt info :: vs, st, _, hd => by
      simp only [List.take_succ_cons, List.take_zero, ticks_cons, ticks_nil, Visit.dt,
        Nat.add_zero] at hd
      simp [runVisits, walkFn_ok, hd]
  | k + 1, .ok dt info :: vs, st, hk, hd => by
      simp only [runVisits, walkFn_ok]
      by_cases hc : ctx.deadline ≤ st.now + (dt : Int)
      · simp [hc]
      · simp only [hc, if_false]
        have hk1 : k < vs.length := by simpa using hk
        have := runVisits_done ctx k vs
          { total := if info.isDir then st.total else wrapInt64 (st.total + info.size),
            now := st.now + dt, visited := st.visited + 1 } hk1
          (by
            simp only [List.take_succ_cons, ticks_cons, Visit.dt] at hd ⊢
            push_cast at hd ⊢
            omega)
        refine ⟨this.1, ?_⟩
        have h2 := this.2
        simp only at h2
        omega

/-- Shifting the start of a walk and the deadline by the same amount shifts
the clock of the walk and changes nothing else. -/
theorem runVisits_shift (d c : Int) :
    ∀ (vs : List Visit) (st : ScanState),
      runVisits (walkFn { deadline := d + c }) { st with now := st.now + c } vs =
        ({ (runVisits (walkFn { deadline := d }) st vs).1 with
            now := (runVisits (walkFn { deadline := d }) st vs).1.now + c },
          (runVisits (walkFn { deadline := d }) st vs).2)
  | [], st => by simp [runVisits]
  | .failed dt err :: vs, st => by
      simp only [runVisits, walkFn]
      congr 2
      ring
  | .ok dt info :: vs, st => by
      simp only [runVisits, walkFn_ok]
      have hiff : (d + c ≤ st.now + c + (dt : Int)) ↔ (d ≤ st.now + (dt : Int)) := by
        constructor <;> intro h <;> omega
      by_cases hc : d ≤ st.now + (dt : Int)
      · simp only [hiff.mpr hc, hc, if_true]
        congr 2
        ring
      · have hc2 : ¬ (d + c ≤ st.now + c + (dt : Int)) := fun h => hc (hiff.mp h)
        simp only [hc2, hc, if_false]
        have := runVisits_shift d c vs
          { total := if info.isDir then st.total else wrapInt64 (st.total + info.size),
            now := st.now + dt, visited := st.visited + 1 }
        simp only at this
        rw [← this]
        congr 2
        ring

/-- Every walk calls the callback at least for its root. -/
theorem walkOrder_ne_nil : ∀ t : Node, walkOrder t ≠ []
  | .missing _ _ => by simp [walkOrder]
  | .file _ _ _ => by simp [walkOrder]
  | .dir _ _ (some _) _ => by simp [walkOrder]
  | .dir _ _ none _ => by simp [walkOrder]

mutual
theorem bytesOf_walkOrder : ∀ t : Node, bytesOf (walkOrder t) = nonDirBytes t
  | .missing _ _ => by simp [walkOrder, nonDirBytes, bytesOf, Visit.bytes]
  | .file _ _ _ => by simp [walkOrder, nonDirBytes, bytesOf, Visit.bytes]
  | .dir _ _ (some _) _ => by simp [walkOrder, nonDirBytes, bytesOf, Visit.bytes]
  | .dir _ _ none cs => by
      simp only [walkOrder, nonDirBytes, bytesOf_cons, Visit.bytes, if_true, zero_add]
      exact bytesOf_walkOrderList cs
theorem bytesOf_walkOrderList : ∀ cs : List Node,
    bytesOf (walkOrderList cs) = nonDirBytesList cs
  | [] => by simp [walkOrderList, nonDirBytesList, bytesOf]
  | c :: cs => by
      simp only [walkOrderList, nonDirBytesList, bytesOf_append]
      rw [bytesOf_walkOrder c, bytesOf_walkOrderList cs]
end

mutual
theorem errorFree_walkOrder : ∀ t : Node, errorFree t = true →
    ∀ v ∈ walkOrder t, v.err = none
  | .missing _ _, h => by simp [errorFree] at h
  | .file _ _ _, _ => by simp [walkOrder, Visit.err]
  | .dir _ _ (some _) _, h => by simp [errorFree] at h
  | .dir _ _ none cs, h => by
      simp only [errorFree] at h
      intro v hv
      simp only [walkOrder, List.mem_cons] at hv
      rcases hv with rfl | hv
      · rfl
      · exact errorFreeList_walkOrder cs h v hv
theorem errorFreeList_walkOrder : ∀ cs : List Node, errorFreeList cs = true →
    ∀ v ∈ walkOrderList cs, v.err = none
  | [], _ => by simp [walkOrderList]
  | c :: cs, h => by
      simp only [errorFreeList, Bool.and_eq_true] at h
      intro v hv
      simp only [walkOrderList, List.mem_append] at hv
      rcases hv with hv | hv
      · exact errorFree_walkOrder c h.1 v hv
      · exact errorFreeList_walkOrder cs h.2 v hv
end

mutual
theorem walkOrder_errorFree : ∀ t : Node, (∀ v ∈ walkOrder t, v.err = none) →
    errorFree t = true
  | .missing _ _, h => by simp [walkOrder, Visit.err] at h
  | .file _ _ _, _ => by simp [errorFree]
  | .dir _ _ (some _) _, h => by simp [walkOrder, Visit.err] at h
  | .dir _ _ none cs, h => by
      simp only [errorFree]
      exact walkOrderList_errorFree cs (fun v hv => h v (by simp [walkOrder, hv]))
theorem walkOrderList_errorFree : ∀ cs : List Node,
    (∀ v ∈ walkOrderList cs, v.err = none) → errorFreeList cs = true
  | [], _ => by simp [errorFreeList]
  | c :: cs, h => by
      simp only [errorFreeList, Bool.and_eq_true]
      exact ⟨walkOrder_errorFree c (fun v hv => h v (by simp [walkOrderList, hv])),
        walkOrderList_errorFree cs (fun v hv => h v (by simp [walkOrderList, hv]))⟩
end

mutual
theorem nonDirBytes_onlyRegular : ∀ t : Node, onlyRegular t = true →
    nonDirBytes t = regularBytes t
  | .missing _ _, _ => by simp [nonDirBytes, regularBytes]
  | .file _ _ _, h => by
      simp only [onlyRegular, decide_eq_true_eq] at h
      simp [nonDirBytes, regularBytes, h]
  | .dir _ _ (some _) _, _ => by simp [nonDirBytes, regularBytes]
  | .dir _ _ none cs, h => by
      simp only [onlyRegular] at h
      simp only [nonDirBytes, regularBytes]
      exact nonDirBytesList_onlyRegular cs h
theorem nonDirBytesList_onlyRegular : ∀ cs : List Node, onlyRegularList cs = true →
    nonDirBytesList cs = regularBytesList cs
  | [], _ => by simp [nonDirBytesList, regularBytesList]
  | c :: cs, h => by
      simp only [onlyRegularList, Bool.and_eq_true] at h
      simp only [nonDirBytesList, regularBytesList]
      rw [nonDirBytes_onlyRegular c h.1, nonDirBytesList_onlyRegular cs h.2]
end

/-! ### The scanner as a run over the walk order -/

theorem Walk_eq_runVisits (ctx : Context) (st : ScanState) (t : Node) :
    Walk (walkFn ctx) st t = runVisits (walkFn ctx) st (walkOrder t) :=
  walk_eq_runVisits (walkFn ctx) t st

/-- The clock of a walk never runs backwards. -/
theorem runVisits_now_le (ctx : Context) :
    ∀ (vs : List Visit) (st : ScanState), st.now ≤ (runVisits (walkFn ctx) st vs).1.now
  | [], st => by simp [runVisits]
  | .failed dt err :: vs, st => by
      simp only [runVisits, walkFn]
      omega
  | .ok dt info :: vs, st => by
      simp only [runVisits, walkFn_ok]
      by_cases hc : ctx.deadline ≤ st.now + (dt : Int)
      · simp only [hc, if_true]
        omega
      · simp only [hc, if_false]
        have := runVisits_now_le ctx vs
          { total := if info.isDir then st.total else wrapInt64 (st.total + info.size),
            now := st.now + dt, visited := st.visited + 1 }
        simp only at this
        omega

theorem sendTime_shift (d c s : Int) (t : Node) (sch : Sched) :
    sendTime { deadline := d + c } (s + c) t sch = sendTime { deadline := d } s t sch + c := by
  unfold sendTime
  rw [Walk_eq_runVisits, Walk_eq_runVisits]
  have := runVisits_shift d c (walkOrder t) { total := 0, now := s, visited := 0 }
  simp only at this
  rw [this]
  simp only
  ring

theorem selectTime_shift (d c s : Int) (t : Node) (sch : Sched) :
    selectTime { deadline := d + c } (s + c) t sch = selectTime { deadline := d } s t sch + c := by
  unfold selectTime
  rw [sendTime_shift]
  simp only [max_def, min_def]
  split_ifs <;> omega

theorem selectsDone_shift (d c s : Int) (t : Node) (sch : Sched) :
    selectsDone { deadline := d + c } (s + c) t sch = selectsDone { deadline := d } s t sch := by
  unfold selectsDone
  simp only [selectTime_shift, sendTime_shift, Context.Done, add_le_add_iff_right]

/-- Starting a scan `c` ticks later with a deadline `c` ticks later changes only
the time at which it returns. -/
theorem getDirSize_shift (env : ScanEnv) (d c s : Int) (path : GoString) :
    getDirSize env (s + c) { deadline := d + c } path =
      { getDirSize env s { deadline := d } path with
        returnedAt := (getDirSize env s { deadline := d } path).returnedAt + c } := by
  unfold getDirSize
  simp only [selectsDone_shift, selectTime_shift]
  split_ifs with h
  · simp [Context.Err, Context.Done]
  · simp only [walker, Walk_eq_runVisits]
    have := runVisits_shift d c (walkOrder (env.fs path)) { total := 0, now := s, visited := 0 }
    simp only at this
    rw [this]
    rcases runVisits (walkFn { deadline := d }) { total := 0, now := s, visited := 0 }
      (walkOrder (env.fs path)) with ⟨st1, _ | e⟩ <;> rfl

/-- The outcome of a scan started at `start` with the timeout counted from
`start` is the outcome of the same scan started at time zero. -/
theorem getDirSize_fresh (env : ScanEnv) (start timeout : Int) (path : GoString) :
    (getDirSize env start (WithTimeout start timeout) path).size =
        (getDirSize env 0 (WithTimeout 0 timeout) path).size ∧
      (getDirSize env start (WithTimeout start timeout) path).err =
        (getDirSize env 0 (WithTimeout 0 timeout) path).err ∧
      (getDirSize env start (WithTimeout start timeout) path).returnedAt =
        (getDirSize env 0 (WithTimeout 0 timeout) path).returnedAt + start := by
  have h := getDirSize_shift env timeout start 0 path
  have e1 : (0 : Int) + start = start := by ring
  have e2 : timeout + start = start + timeout := by ring
  have e3 : WithTimeout 0 timeout = { deadline := timeout } := by simp [WithTimeout]
  rw [e1, e2] at h
  simp only [WithTimeout, e3, zero_add] at h ⊢
  rw [h]
  exact ⟨rfl, rfl, rfl⟩

/-! ### Go strings -/

theorem byte_val (n : Nat) (h : n < 256) : (byte n).val = n := by
  simp [byte, Nat.mod_eq_of_lt h]

theorem char_range (c : Char) :
    c.toNat < 55296 ∨ (57343 < c.toNat ∧ c.toNat < 1114112) := by
  have h := c.valid
  simpa [UInt32.isValidChar, Nat.isValidChar, Char.toNat] using h

/-- The encoding of a Unicode scalar value is one well-formed UTF-8 sequence. -/
theorem validBytes_encodeRune (c : Char) (rest : List (Fin 256)) :
    validBytes (encodeRune c ++ rest) = validBytes rest := by
  have hr := char_range c
  unfold encodeRune
  simp only
  generalize c.toNat = n at hr
  by_cases h1 : n < 128
  · simp only [h1, if_true, List.singleton_append]
    rw [validBytes.eq_def]
    simp [byte_val n (by omega), h1]
  · by_cases h2 : n < 2048
    · have e0 : (byte (192 + n / 64)).val = 192 + n / 64 := byte_val _ (by omega)
      have e1 : (byte (128 + n % 64)).val = 128 + n % 64 := byte_val _ (by omega)
      simp only [h1, h2, if_true, if_false, List.cons_append, List.nil_append]
      rw [validBytes.eq_def]
      have a1 : ¬ (192 + n / 64 < 128) := by omega
      have a2 : 194 ≤ 192 + n / 64 := by omega
      have a3 : 192 + n / 64 ≤ 223 := by omega
      have a5 : n % 64 ≤ 63 := by omega
      simp [inRange, e0, e1, a1, a2, a3, a5]
      intros
      omega
    · by_cases h3 : n < 65536
      · have e0 : (byte (224 + n / 4096)).val = 224 + n / 4096 := byte_val _ (by omega)
        have e1 : (byte (128 + n / 64 % 64)).val = 128 + n / 64 % 64 :=
          byte_val _ (by omega)
        have e2 : (byte (128 + n % 64)).val = 128 + n % 64 := byte_val _ (by omega)
        simp only [h1, h2, h3, if_true, if_false, List.cons_append, List.nil_append]
        rw [validBytes.eq_def]
        have a1 : ¬ (224 + n / 4096 < 128) := by omega
        have a2 : ¬ (224 + n / 4096 ≤ 223) := by omega
        have a5 : n % 64 ≤ 63 := by omega
        have a6 : n / 64 % 64 ≤ 63 := by omega
        simp only [inRange, e0, e1, e2, a1, a2, if_false, decide_False, Bool.and_false,
          Bool.false_eq_true]
        by_cases c0 : n / 4096 = 0
        · have b1 : 32 ≤ n / 64 % 64 := by omega
          simp [c0, b1, a5, a6]
          intros
          omega
        · by_cases c13 : n / 4096 = 13
          · have b1 : n / 64 % 64 ≤ 31 := by omega
            simp [c13, b1, a5, a6]
            intros
            omega
          · have d1 : ¬ (224 + n / 4096 = 224) := by omega
            have d2 : ¬ (224 + n / 4096 = 237) := by omega
            have d3 : (225 ≤ 224 + n / 4096 ∧ 224 + n / 4096 ≤ 236) ∨
                (238 ≤ 224 + n / 4096 ∧ 224 + n / 4096 ≤ 239) := by omega
            rcases d3 with d3 | d3 <;> (simp [d1, d2, d3, a5, a6]; intros; omega)
      · have e0 : (byte (240 + n / 262144)).val = 240 + n / 262144 := byte_val _ (by omega)
        have e1 : (byte (128 + n / 4096 % 64)).val = 128 + n / 4096 % 64 :=
          byte_val _ (by omega)
        have e2 : (byte (128 + n / 64 % 64)).val = 128 + n / 64 % 64 :=
          byte_val _ (by omega)
        have e3 : (byte (128 + n % 64)).val = 128 + n % 64 := byte_val _ (by omega)
        simp only [h1, h2, h3, if_true, if_false, List.cons_append, List.nil_append]
        rw [validBytes.eq_def]
        have a1 : ¬ (240 + n / 262144 < 128) := by omega
        have a2 : ¬ (240 + n / 262144 ≤ 223) := by omega
        have a3 : ¬ (240 + n / 262144 = 224) := by omega
        have a4 : ¬ (240 + n / 262144 ≤ 236) := by omega
        have a4b : ¬ (240 + n / 262144 ≤ 239) := by omega
        have a4c : ¬ (240 + n / 262144 = 237) := by omega
        have a5 : n % 64 ≤ 63 := by omega
        have a6 : n / 64 % 64 ≤ 63 := by omega
        have a7 : n / 4096 % 64 ≤ 63 := by omega
        simp only [inRange, e0, e1, e2, e3, a1, a2, a3, a4, a4b, a4c, if_false, decide_False,
          Bool.and_false, Bool.false_eq_true, Bool.or_self]
        by_cases c0 : n / 262144 = 0
        · have b1 : 16 ≤ n / 4096 % 64 := by omega
          simp [c0, b1, a5, a6, a7]
          intros
          omega
        · by_cases c4 : n / 262144 = 4
          · have b1 : n / 4096 % 64 ≤ 15 := by omega
            simp [c4, b1, a5, a6, a7]
            intros
            omega
          · have d1 : ¬ (240 + n / 262144 = 240) := by omega
            have d2 : 241 ≤ 240 + n / 262144 := by omega
            have d3 : 240 + n / 262144 ≤ 243 := by omega
            simp [d1, d2, d3, a5, a6, a7]
            intros
            omega

theorem validBytes_encodeRunes : ∀ cs : List Char, validBytes (encodeRunes cs) = true
  | [] => rfl
  | c :: cs => by
      rw [encodeRunes, validBytes_encodeRune]
      exact validBytes_encodeRunes cs

/-- A Go string written as text is valid UTF-8. -/
theorem ValidString_str (s : String) : ValidString (str s) = true :=
  validBytes_encodeRunes s.data

/-! ### The loop of `Collect` -/

theorem NewConstMetric_valid (value : Int) (label : GoString)
    (h : ValidString label = true) :
    NewConstMetric value label = some { label := label, value := value } := by
  simp [NewConstMetric, h]

theorem NewConstMetric_invalid (value : Int) (label : GoString)
    (h : ValidString label = false) : NewConstMetric value label = none := by
  simp [NewConstMetric, h]

/-- The loop on a first target whose label is valid UTF-8. -/
theorem collectLoop_cons_valid (timeout : Int) (env : Nat → ScanEnv) (i : Nat) (now : Int)
    (dir : Directory) (rest : List Directory) (h : ValidString dir.Label = true) :
    collectLoop timeout env i now (dir :: rest) =
      { startedAt := now, ctx := WithTimeout now timeout,
        ret := getDirSize (env i) now (WithTimeout now timeout) dir.Path,
        sample := some
          { label := dir.Label,
            value := if (getDirSize (env i) now (WithTimeout now timeout) dir.Path).err.isSome
              then 0 else (getDirSize (env i) now (WithTimeout now timeout) dir.Path).size } } ::
        collectLoop timeout env (i + 1)
          ((getDirSize (env i) now (WithTimeout now timeout) dir.Path).returnedAt +
            (env i).idle) rest := by
  simp only [collectLoop, NewConstMetric_valid _ _ h]

/-- The loop on a first target whose label is not valid UTF-8. -/
theorem collectLoop_cons_invalid (timeout : Int) (env : Nat → ScanEnv) (i : Nat) (now : Int)
    (dir : Directory) (rest : List Directory) (h : ValidString dir.Label = false) :
    collectLoop timeout env i now (dir :: rest) =
      [{ startedAt := now, ctx := WithTimeout now timeout,
         ret := getDirSize (env i) now (WithTimeout now timeout) dir.Path,
         sample := none }] := by
  simp only [collectLoop, NewConstMetric_invalid _ _ h]

/-- Every iteration of the loop makes its own context from its own start time,
scans its own target in its own surroundings and hands what that scan returned
to `MustNewConstMetric`. -/
theorem collectLoop_get (timeout : Int) (env : Nat → ScanEnv) :
    ∀ (dirs : List Directory) (j : Nat) (now : Int) (i : Nat) (r : ScanRecord),
      (collectLoop timeout env j now dirs)[i]? = some r →
      ∃ d, dirs[i]? = some d ∧ r.ctx = WithTimeout r.startedAt timeout ∧
        r.ret = getDirSize (env (j + i)) r.startedAt r.ctx d.Path ∧
        r.sample = NewConstMetric (if r.ret.err.isSome then 0 else r.ret.size) d.Label
  | [], _, _, _, _, h => by simp [collectLoop] at h
  | d :: ds, j, now, i, r, h => by
      rcases hv : ValidString d.Label with _ | _
      · rw [collectLoop_cons_invalid timeout env j now d ds hv] at h
        cases i with
        | zero =>
            simp only [List.getElem?_cons_zero, Option.some.injEq] at h
            subst h
            exact ⟨d, by simp, rfl, by simp, by simp [NewConstMetric_invalid _ _ hv]⟩
        | succ i => simp at h
      · rw [collectLoop_cons_valid timeout env j now d ds hv] at h
        cases i with
        | zero =>
            simp only [List.getElem?_cons_zero, Option.some.injEq] at h
            subst h
            exact ⟨d, by simp, rfl, by simp, by simp [NewConstMetric_valid _ _ hv]⟩
        | succ i =>
            simp only [List.getElem?_cons_succ] at h
            obtain ⟨d1, h1, h2, h3, h4⟩ := collectLoop_get timeout env ds _ _ i r h
            have e : j + 1 + i = j + (i + 1) := by omega
            refine ⟨d1, by simpa using h1, h2, ?_, h4⟩
            rw [h3, e]

/-- Iteration `i` is reached when the labels of the targets before it are valid
UTF-8. -/
theorem collectLoop_reached (timeout : Int) (env : Nat → ScanEnv) :
    ∀ (dirs : List Directory) (j : Nat) (now : Int) (i : Nat) (d : Directory),
      dirs[i]? = some d →
      (∀ k dk, k < i → dirs[k]? = some dk → ValidString dk.Label = true) →
      ∃ r, (collectLoop timeout env j now dirs)[i]? = some r
  | [], _, _, _, _, h, _ => by simp at h
  | d0 :: ds, j, now, 0, d, _, _ => by
      rcases hv : ValidString d0.Label with _ | _
      · rw [collectLoop_cons_invalid timeout env j now d0 ds hv]
        simp
      · rw [collectLoop_cons_valid timeout env j now d0 ds hv]
        simp
  | d0 :: ds, j, now, i + 1, d, h, hvalid => by
      have hv : ValidString d0.Label = true := hvalid 0 d0 (by omega) (by simp)
      rw [collectLoop_cons_valid timeout env j now d0 ds hv]
      simp only [List.getElem?_cons_succ] at h ⊢
      exact collectLoop_reached timeout env ds _ _ i d h
        (fun k dk hk hdk => hvalid (k + 1) dk (by omega) (by simpa using hdk))

/-- The sample of index `i` that was sent is the sample of iteration `i`. -/
theorem collectLoop_sent (timeout : Int) (env : Nat → ScanEnv) :
    ∀ (dirs : List Directory) (j : Nat) (now : Int) (i : Nat) (r : ScanRecord),
      (collectLoop timeout env j now dirs)[i]? = some r →
      ((collectLoop timeout env j now dirs).filterMap ScanRecord.sample)[i]? = r.sample
  | [], _, _, _, _, h => by simp [collectLoop] at h
  | d :: ds, j, now, i, r, h => by
      rcases hv : ValidString d.Label with _ | _
      · rw [collectLoop_cons_invalid timeout env j now d ds hv] at h ⊢
        cases i with
        | zero =>
            simp only [List.getElem?_cons_zero, Option.some.injEq] at h
            subst h
            simp
        | succ i => simp at h
      · rw [collectLoop_cons_valid timeout env j now d ds hv] at h ⊢
        cases i with
        | zero =>
            simp only [List.getElem?_cons_zero, Option.some.injEq] at h
            subst h
            simp
        | succ i =>
            simp only [List.getElem?_cons_succ] at h
            have := collectLoop_sent timeout env ds _ _ i r h
            simpa using this

/-- The labels of the samples sent are the labels of the targets that come
before the first target whose label is not valid UTF-8. -/
theorem collectLoop_labels (timeout : Int) (env : Nat → ScanEnv) :
    ∀ (dirs : List Directory) (j : Nat) (now : Int),
      ((collectLoop timeout env j now dirs).filterMap ScanRecord.sample).map
          Observation.label =
        (dirs.takeWhile (fun d => ValidString d.Label)).map Directory.Label
  | [], _, _ => by simp [collectLoop]
  | d :: ds, j, now => by
      rcases hv : ValidString d.Label with _ | _
      · rw [collectLoop_cons_invalid timeout env j now d ds hv]
        simp [List.takeWhile, hv]
      · rw [collectLoop_cons_valid timeout env j now d ds hv]
        simpa [List.filterMap_cons, List.takeWhile, hv] using
          collectLoop_labels timeout env ds _ _

/-- The loop ends by a panic exactly when some label is not valid UTF-8. -/
theorem collectLoop_panicked (timeout : Int) (env : Nat → ScanEnv) :
    ∀ (dirs : List Directory) (j : Nat) (now : Int),
      (collectLoop timeout env j now dirs).any (fun r => r.sample.isNone) =
        !dirs.all (fun d => ValidString d.Label)
  | [], _, _ => by simp [collectLoop]
  | d :: ds, j, now => by
      rcases hv : ValidString d.Label with _ | _
      · rw [collectLoop_cons_invalid timeout env j now d ds hv]
        simp [hv]
      · rw [collectLoop_cons_valid timeout env j now d ds hv]
        simp only [List.any_cons, Option.isNone_some, Bool.false_or, List.all_cons, hv,
          Bool.true_and]
        rw [collectLoop_panicked timeout env ds]

/-- When the `select` is resolved before the deadline, the result of the walker
is what `getDirSize` returns. -/
theorem getDirSize_before_deadline (env : ScanEnv) (start : Int) (ctx : Context)
    (path : GoString)
    (h : selectTime ctx start (env.fs path) env.sched < ctx.deadline) :
    getDirSize env start ctx path =
      match (walker ctx start (env.fs path) true).result with
      | some err =>
          { size := 0, err := some err,
            returnedAt := selectTime ctx start (env.fs path) env.sched }
      | none =>
          { size := float64OfInt64 (walker ctx start (env.fs path) true).state.total,
            err := none, returnedAt := selectTime ctx start (env.fs path) env.sched } := by
  have hd : selectsDone ctx start (env.fs path) env.sched = false := by
    have : ¬ ctx.deadline ≤ selectTime ctx start (env.fs path) env.sched := by omega
    simp [selectsDone, Context.Done, this]
  simp only [getDirSize, hd]
  rfl

/-- A complete walk of a tree free of I/O errors that ends before the
deadline. -/
theorem Walk_errorFree (ctx : Context) (start : Int) (t : Node)
    (hfree : errorFree t = true) (hwalk : start + walkTicks t < ctx.deadline) :
    Walk (walkFn ctx) { total := 0, now := start, visited := 0 } t =
      ({ total := wrapInt64 (nonDirBytes t), now := start + walkTicks t,
         visited := (walkOrder t).length }, none) := by
  rw [Walk_eq_runVisits,
    runVisits_ok ctx (walkOrder t) _ (errorFree_walkOrder t hfree) hwalk
      (by show wrapInt64 0 = 0; decide)]
  simp [bytesOf_walkOrder, walkTicks]

/-- The scan of a tree free of I/O errors that ends before the deadline. -/
theorem getDirSize_errorFree (env : ScanEnv) (start : Int) (ctx : Context)
    (path : GoString) (hfree : errorFree (env.fs path) = true)
    (hwalk : start + walkTicks (env.fs path) + env.sched.sendLag < ctx.deadline)
    (hsel : start + env.sched.selectLag < ctx.deadline) :
    getDirSize env start ctx path =
      { size := float64OfInt64 (wrapInt64 (nonDirBytes (env.fs path))), err := none,
        returnedAt := max (start + env.sched.selectLag)
          (start + walkTicks (env.fs path) + env.sched.sendLag) } := by
  have hW := Walk_errorFree ctx start (env.fs path) hfree (by omega)
  have hsend : sendTime ctx start (env.fs path) env.sched =
      start + walkTicks (env.fs path) + env.sched.sendLag := by
    simp [sendTime, hW]
  have hst : selectTime ctx start (env.fs path) env.sched =
      max (start + env.sched.selectLag)
        (start + walkTicks (env.fs path) + env.sched.sendLag) := by
    simp only [selectTime, hsend, max_def, min_def]
    split_ifs <;> omega
  have hlt : selectTime ctx start (env.fs path) env.sched < ctx.deadline := by
    rw [hst]
    simp only [max_def]
    split_ifs <;> omega
  have hres := getDirSize_before_deadline env start ctx path hlt
  simp only [walker, hW, hst] at hres
  exact hres

/-- The value of an exact total of regular files. -/
theorem float64_of_regular_total (t : Node) (hreg : onlyRegular t = true)
    (h0 : 0 ≤ regularBytes t) (h1 : regularBytes t < 9007199254740992) :
    float64OfInt64 (wrapInt64 (nonDirBytes t)) = regularBytes t := by
  rw [nonDirBytes_onlyRegular _ hreg, wrapInt64_of_range _ (by omega) (by omega),
    float64OfInt64_exact _ h0 h1]

/-- The walk of a tree whose first I/O error in walk order is met before the
deadline. -/
theorem Walk_first_error (ctx : Context) (start : Int) (t : Node) (pre post : List Visit)
    (dt : Nat) (err : Err) (horder : walkOrder t = pre ++ .failed dt err :: post)
    (hpre : ∀ v ∈ pre, v.err = none) (hmet : start + ticks pre + dt < ctx.deadline) :
    Walk (walkFn ctx) { total := 0, now := start, visited := 0 } t =
      ({ total := wrapInt64 (bytesOf pre), now := start + ticks pre + dt,
         visited := pre.length + 1 }, some err) := by
  rw [Walk_eq_runVisits, horder,
    runVisits_stop ctx pre post dt err _ hpre (by simp only; omega)
      (by show wrapInt64 0 = 0; decide)]
  simp

/-- The scan of a tree whose first I/O error in walk order is met, and whose
caller reaches its `select`, before the deadline. -/
theorem getDirSize_first_error (env : ScanEnv) (start : Int) (ctx : Context)
    (path : GoString) (pre post : List Visit) (dt : Nat) (err : Err)
    (horder : walkOrder (env.fs path) = pre ++ .failed dt err :: post)
    (hpre : ∀ v ∈ pre, v.err = none)
    (hlive : start + ticks pre + dt + env.sched.sendLag < ctx.deadline)
    (hsel : start + env.sched.selectLag < ctx.deadline) :
    Walk (walkFn ctx) { total := 0, now := start, visited := 0 } (env.fs path) =
        ({ total := wrapInt64 (bytesOf pre), now := start + ticks pre + dt,
           visited := pre.length + 1 }, some err) ∧
      getDirSize env start ctx path =
        { size := 0, err := some err,
          returnedAt := max (start + env.sched.selectLag)
            (start + ticks pre + dt + env.sched.sendLag) } := by
  have hW : Walk (walkFn ctx) { total := 0, now := start, visited := 0 } (env.fs path) =
      ({ total := wrapInt64 (bytesOf pre), now := start + ticks pre + dt,
         visited := pre.length + 1 }, some err) := by
    rw [Walk_eq_runVisits, horder,
      runVisits_stop ctx pre post dt err _ hpre (by simp only; omega)
        (by show wrapInt64 0 = 0; decide)]
    simp
  have hsend : sendTime ctx start (env.fs path) env.sched =
      start + ticks pre + dt + env.sched.sendLag := by
    simp [sendTime, hW]
  have hst : selectTime ctx start (env.fs path) env.sched =
      max (start + env.sched.selectLag) (start + ticks pre + dt + env.sched.sendLag) := by
    simp only [selectTime, hsend, max_def, min_def]
    split_ifs <;> omega
  have hlt : selectTime ctx start (env.fs path) env.sched < ctx.deadline := by
    rw [hst]
    simp only [max_def]
    split_ifs <;> omega
  have hres := getDirSize_before_deadline env start ctx path hlt
  simp only [walker, hW, hst] at hres
  exact ⟨hW, hres⟩

/-- The scan whose deadline expires, and whose caller is at its `select`,
before the walker sends its result. -/
theorem getDirSize_deadline_before_send (env : ScanEnv) (start : Int) (ctx : Context)
    (path : GoString)
    (hdl : ctx.deadline < sendTime ctx start (env.fs path) env.sched)
    (hsel : start + env.sched.selectLag < sendTime ctx start (env.fs path) env.sched) :
    getDirSize env start ctx path =
      { size := 0, err := some Err.deadlineExceeded,
        returnedAt := max (start + env.sched.selectLag) ctx.deadline } := by
  have hst : selectTime ctx start (env.fs path) env.sched =
      max (start + env.sched.selectLag) ctx.deadline := by
    simp only [selectTime, max_def, min_def]
    split_ifs <;> omega
  have hdone : ctx.deadline ≤ max (start + env.sched.selectLag) ctx.deadline := le_max_right _ _
  have hnot : ¬ sendTime ctx start (env.fs path) env.sched ≤
      max (start + env.sched.selectLag) ctx.deadline := by
    simp only [max_def]
    split_ifs <;> omega
  have hd : selectsDone ctx start (env.fs path) env.sched = true := by
    simp [selectsDone, Context.Done, hst, hdone, hnot]
  simp [getDirSize, hd, hst, Context.Err, Context.Done, hdone]

theorem ticks_take_le (vs : List Visit) (n : Nat) : ticks (vs.take n) ≤ ticks vs := by
  have h := ticks_append (vs.take n) (vs.drop n)
  rw [List.take_append_drop] at h
  omega

/-- A successful return of `getDirSize` comes from a walk without error. -/
theorem getDirSize_err_none (env : ScanEnv) (start : Int) (ctx : Context) (path : GoString)
    (h : (getDirSize env start ctx path).err = none) :
    (Walk (walkFn ctx) { total := 0, now := start, visited := 0 } (env.fs path)).2 = none := by
  unfold getDirSize at h
  by_cases hd : selectsDone ctx start (env.fs path) env.sched = true
  · simp only [hd, if_true] at h
    have hdone : ctx.Done (selectTime ctx start (env.fs path) env.sched) = true := by
      simp only [selectsDone, Bool.and_eq_true] at hd
      exact hd.1
    simp [Context.Err, hdone] at h
  · simp only [hd, walker] at h
    rcases hw : (Walk (walkFn ctx) { total := 0, now := start, visited := 0 }
      (env.fs path)).2 with _ | e1
    · rfl
    · rw [hw] at h
      simp at h

/-- Whenever the walk returns an error, `getDirSize` returns an error and size
0, whichever case its `select` takes. -/
theorem getDirSize_of_walk_error (env : ScanEnv) (start : Int) (ctx : Context)
    (path : GoString)
    (h : (Walk (walkFn ctx) { total := 0, now := start, visited := 0 } (env.fs path)).2 ≠
      none) :
    (getDirSize env start ctx path).err ≠ none ∧ (getDirSize env start ctx path).size = 0 := by
  unfold getDirSize
  by_cases hd : selectsDone ctx start (env.fs path) env.sched = true
  · have hdone : ctx.Done (selectTime ctx start (env.fs path) env.sched) = true := by
      simp only [selectsDone, Bool.and_eq_true] at hd
      exact hd.1
    simp [hd, Context.Err, hdone]
  · simp only [hd, walker]
    rcases hw : (Walk (walkFn ctx) { total := 0, now := start, visited := 0 }
      (env.fs path)).2 with _ | e1
    · exact absurd hw h
    · simp

/-- The scan whose caller reaches its `select` when both the deadline has
expired and the walker has sent its result: the scheduler chooses the case. -/
theorem getDirSize_late_select (env : ScanEnv) (start : Int) (ctx : Context)
    (path : GoString)
    (hdl : ctx.deadline ≤ start + env.sched.selectLag)
    (hsent : sendTime ctx start (env.fs path) env.sched ≤ start + env.sched.selectLag) :
    getDirSize env start ctx path =
      if env.sched.pickDone then
        { size := 0, err := some Err.deadlineExceeded,
          returnedAt := start + env.sched.selectLag }
      else
        match (walker ctx start (env.fs path) true).result with
        | some err =>
            { size := 0, err := some err, returnedAt := start + env.sched.selectLag }
        | none =>
            { size := float64OfInt64 (walker ctx start (env.fs path) true).state.total,
              err := none, returnedAt := start + env.sched.selectLag } := by
  have hst : selectTime ctx start (env.fs path) env.sched = start + env.sched.selectLag := by
    simp only [selectTime, max_def, min_def]
    split_ifs <;> omega
  have hd : selectsDone ctx start (env.fs path) env.sched = env.sched.pickDone := by
    simp [selectsDone, Context.Done, hst, hdl, hsent]
  unfold getDirSize
  simp only [hd, hst]
  cases env.sched.pickDone
  · simp
  · simp [Context.Err, Context.Done, hdl]

/-- Whatever its `select` takes, `getDirSize` returns size 0 with the deadline
error, or what the walker found. -/
theorem getDirSize_cases (env : ScanEnv) (start : Int) (ctx : Context) (path : GoString) :
    ((getDirSize env start ctx path).size = 0 ∧
        (getDirSize env start ctx path).err = some Err.deadlineExceeded) ∨
      ((getDirSize env start ctx path).err = (walker ctx start (env.fs path) true).result ∧
        (getDirSize env start ctx path).size =
          if (walker ctx start (env.fs path) true).result.isSome then 0
          else float64OfInt64 (walker ctx start (env.fs path) true).state.total) := by
  unfold getDirSize
  by_cases hd : selectsDone ctx start (env.fs path) env.sched = true
  · left
    have hdone : ctx.Done (selectTime ctx start (env.fs path) env.sched) = true := by
      simp only [selectsDone, Bool.and_eq_true] at hd
      exact hd.1
    simp [hd, Context.Err, hdone]
  · right
    simp only [hd]
    rcases (walker ctx start (env.fs path) true).result with _ | e1 <;> simp

/-! ## The claims -/

/-- C1, as stated, fails: the scan of a tree free of I/O errors that ends long
before its deadline returns 10 for a tree whose regular files total 3 bytes,
because the 7 bytes of a symbolic link are added as well; and for a single
regular (sparse) file of `2^53 + 1` bytes it returns `2^53`, the nearest
`float64`. -/
theorem getDirSize_adds_symlink_size :
    (errorFree (linkEnv.fs (str "/data")) = true ∧
      (0 : Int) + walkTicks (linkEnv.fs (str "/data")) + linkEnv.sched.sendLag <
        (WithTimeout 0 100).deadline ∧
      (0 : Int) + linkEnv.sched.selectLag < (WithTimeout 0 100).deadline ∧
      getDirSize linkEnv 0 (WithTimeout 0 100) (str "/data") =
        { size := 10, err := none, returnedAt := 3 } ∧
      regularBytes (linkEnv.fs (str "/data")) = 3) ∧
      (errorFree (hugeEnv.fs (str "/data")) = true ∧
      (0 : Int) + walkTicks (hugeEnv.fs (str "/data")) + hugeEnv.sched.sendLag <
        (WithTimeout 0 100).deadline ∧
      (0 : Int) + hugeEnv.sched.selectLag < (WithTimeout 0 100).deadline ∧
      getDirSize hugeEnv 0 (WithTimeout 0 100) (str "/data") =
        { size := 9007199254740992, err := none, returnedAt := 1 } ∧
      regularBytes (hugeEnv.fs (str "/data")) = 9007199254740993) := by
  decide

/-- C1 (amended): for every tree free of I/O errors whose walker has sent its
result, and whose caller has reached its `select`, before the deadline,
`getDirSize` succeeds and
returns `float64` of the `int64` sum of `Size()` over every reachable entry
that is not a directory (directories contribute nothing); when all those
entries are regular files and their total `S` satisfies `0 ≤ S < 2^53`, the
value is `S`. -/
theorem getDirSize_sums_non_directories (env : ScanEnv) (start : Int) (ctx : Context)
    (path : GoString) (hfree : errorFree (env.fs path) = true)
    (hwalk : start + walkTicks (env.fs path) + env.sched.sendLag < ctx.deadline)
    (hsel : start + env.sched.selectLag < ctx.deadline) :
    (getDirSize env start ctx path).err = none ∧
      (getDirSize env start ctx path).size =
        float64OfInt64 (wrapInt64 (nonDirBytes (env.fs path))) ∧
      (onlyRegular (env.fs path) = true → 0 ≤ regularBytes (env.fs path) →
        regularBytes (env.fs path) < 9007199254740992 →
        (getDirSize env start ctx path).size = regularBytes (env.fs path)) := by
  rw [getDirSize_errorFree env start ctx path hfree hwalk hsel]
  exact ⟨rfl, rfl, fun hreg h0 h1 => float64_of_regular_total _ hreg h0 h1⟩

theorem getDirSize_sums_non_directories_witness :
    (getDirSize (exampleEnv 0) 0 (WithTimeout 0 100) (str "/tmp/a")).err = none ∧
      (getDirSize (exampleEnv 0) 0 (WithTimeout 0 100) (str "/tmp/a")).size = 1024 :=
  have h := getDirSize_sums_non_directories (exampleEnv 0) 0 (WithTimeout 0 100) (str "/tmp/a")
    (by decide) (by decide) (by decide)
  ⟨h.1, h.2.2 (by decide) (by decide) (by decide)⟩

/-- C2, as stated, fails: with two configured targets of which the second has a
label that is not valid UTF-8, `Collect` sends one sample, not two, and ends by
the panic of `MustNewConstMetric`. -/
theorem Collect_panics_on_invalid_label :
    (NewDirectorySizeExporter
        [⟨str "/tmp/a", str "a"⟩, ⟨str "/tmp/missing", badLabel⟩] 100).directories.length = 2 ∧
      (NewDirectorySizeExporter
        [⟨str "/tmp/a", str "a"⟩, ⟨str "/tmp/missing", badLabel⟩] 100).Collect exampleEnv 0 =
        { sent := [{ label := str "a", value := 1024 }], panicked := true } := by
  decide

/-- C2 (amended): for every target list and whatever the scans return,
`Collect` sends one sample for each target that comes before the first target
whose label is not valid UTF-8, carrying the labels of those targets in
configured order, and it ends by a panic exactly when there is such a target;
so for every target list whose labels are all valid UTF-8 it does not panic, it
sends exactly one sample per configured target, and the sample of index `i`
carries the label of the target of index `i`. -/
theorem Collect_one_sample_per_target (e : DirectorySizeExporter) (env : Nat → ScanEnv)
    (start : Int) :
    (e.Collect env start).sent.map Observation.label =
        (e.directories.takeWhile (fun d => ValidString d.Label)).map Directory.Label ∧
      (e.Collect env start).panicked = !e.directories.all (fun d => ValidString d.Label) ∧
      ((∀ d ∈ e.directories, ValidString d.Label = true) →
        (e.Collect env start).panicked = false ∧
        (e.Collect env start).sent.length = e.directories.length ∧
        ∀ i : Nat, ((e.Collect env start).sent[i]?).map Observation.label =
          (e.directories[i]?).map Directory.Label) := by
  have hl := collectLoop_labels e.timeout env e.directories 0 start
  have hp := collectLoop_panicked e.timeout env e.directories 0 start
  refine ⟨hl, hp, fun hall => ?_⟩
  have hall2 : e.directories.all (fun d => ValidString d.Label) = true := by
    simpa using hall
  have htw : e.directories.takeWhile (fun d => ValidString d.Label) = e.directories :=
    List.takeWhile_eq_self_iff.mpr (by simpa using hall)
  have hmap : (e.Collect env start).sent.map Observation.label =
      e.directories.map Directory.Label := by
    rw [← htw]
    exact hl
  refine ⟨?_, ?_, fun i => ?_⟩
  · show (collectLoop e.timeout env 0 start e.directories).any (fun r => r.sample.isNone) =
      false
    rw [hp, hall2]
    rfl
  · have := congrArg List.length hmap
    simpa using this
  · rw [← List.getElem?_map, ← List.getElem?_map, hmap]

theorem Collect_one_sample_per_target_witness :
    (NewDirectorySizeExporter
        [⟨str "/tmp/a", str "a"⟩, ⟨str "/tmp/missing", str "b"⟩] 100).Collect exampleEnv
        0 = { sent := [{ label := str "a", value := 1024 }, { label := str "b", value := 0 }],
              panicked := false } ∧
      (NewDirectorySizeExporter
        [⟨str "/tmp/a", str "a"⟩, ⟨str "/tmp/missing", str "b"⟩] 100).directories.length =
        ((NewDirectorySizeExporter
          [⟨str "/tmp/a", str "a"⟩, ⟨str "/tmp/missing", str "b"⟩] 100).Collect exampleEnv
          0).sent.length :=
  ⟨by decide,
    ((Collect_one_sample_per_target
      (NewDirectorySizeExporter
        [⟨str "/tmp/a", str "a"⟩, ⟨str "/tmp/missing", str "b"⟩] 100) exampleEnv 0).2.2
      (by decide)).2.1.symm⟩

/-- C3, as stated, fails: with a first target whose label is not valid UTF-8,
`Collect` ends by the panic of `MustNewConstMetric` in the first iteration, so
the second target, whose scan alone succeeds with 1024 bytes, is never scanned
and no sample of index 1 is sent. -/
theorem Collect_skips_targets_after_invalid_label :
    (NewDirectorySizeExporter
        [⟨str "/tmp/missing", badLabel⟩, ⟨str "/tmp/a", str "a"⟩] 100).directories[1]? =
        some ⟨str "/tmp/a", str "a"⟩ ∧
      getDirSize (exampleEnv 1) 0 (WithTimeout 0 100) (str "/tmp/a") =
        { size := 1024, err := none, returnedAt := 4 } ∧
      (collectLoop 100 exampleEnv 0 0
        [⟨str "/tmp/missing", badLabel⟩, ⟨str "/tmp/a", str "a"⟩]).length = 1 ∧
      ((NewDirectorySizeExporter
        [⟨str "/tmp/missing", badLabel⟩, ⟨str "/tmp/a", str "a"⟩] 100).Collect exampleEnv
        0).sent[1]? = none := by
  decide

/-- C3 (amended): for every target list and every index `i` such that the labels
of the targets of index at most `i` are valid UTF-8, the sample of index `i`
carries the size returned by the scan of target `i` when that scan succeeded
and 0 when it failed, with an I/O error or with the deadline error; what that
scan returns is what the same scan returns when it is run alone from time
zero, whatever the other scans did. -/
theorem Collect_value_of_own_scan (e : DirectorySizeExporter) (env : Nat → ScanEnv)
    (start : Int) (i : Nat) (d : Directory) (h : e.directories[i]? = some d)
    (hvalid : ∀ dk ∈ e.directories.take (i + 1), ValidString dk.Label = true) :
    ∃ r, (collectLoop e.timeout env 0 start e.directories)[i]? = some r ∧
      r.ret = getDirSize (env i) r.startedAt (WithTimeout r.startedAt e.timeout) d.Path ∧
      r.ret.size = (getDirSize (env i) 0 (WithTimeout 0 e.timeout) d.Path).size ∧
      r.ret.err = (getDirSize (env i) 0 (WithTimeout 0 e.timeout) d.Path).err ∧
      (e.Collect env start).sent[i]? = some
        { label := d.Label,
          value := match r.ret.err with
            | none => r.ret.size
            | some (.pathError _) => 0
            | some .deadlineExceeded => 0 } := by
  have hidx : ∀ k dk, k ≤ i → e.directories[k]? = some dk → ValidString dk.Label = true := by
    intro k dk hk hdk
    apply hvalid dk
    have hlt : k < i + 1 := by omega
    have : (e.directories.take (i + 1))[k]? = some dk := by
      rw [List.getElem?_take_of_lt hlt, hdk]
    exact List.getElem?_mem this
  obtain ⟨r, hr⟩ := collectLoop_reached e.timeout env e.directories 0 start i d h
    (fun k dk hk hdk => hidx k dk (by omega) hdk)
  obtain ⟨d1, h1, h2, h3, h4⟩ := collectLoop_get e.timeout env e.directories 0 start i r hr
  rw [h] at h1
  cases h1
  rw [h2, Nat.zero_add] at h3
  have hf := getDirSize_fresh (env i) r.startedAt e.timeout d.Path
  refine ⟨r, hr, h3, ?_, ?_, ?_⟩
  · rw [h3]; exact hf.1
  · rw [h3]; exact hf.2.1
  · have hv : (if r.ret.err.isSome = true then (0 : Int) else r.ret.size) =
        (match r.ret.err with
          | none => r.ret.size
          | some (.pathError _) => 0
          | some .deadlineExceeded => 0) := by
      rcases r.ret.err with _ | e1
      · rfl
      · cases e1 <;> rfl
    show ((collectLoop e.timeout env 0 start e.directories).filterMap
      ScanRecord.sample)[i]? = _
    rw [collectLoop_sent e.timeout env e.directories 0 start i r hr, h4,
      NewConstMetric_valid _ _ (hidx i d (le_refl i) h), hv]

theorem Collect_value_of_own_scan_witness :
    ∃ r, (collectLoop 100 exampleEnv 0 0
        [⟨str "/tmp/a", str "a"⟩, ⟨str "/tmp/missing", str "b"⟩])[1]? = some r ∧
      r.ret = getDirSize (exampleEnv 1) r.startedAt (WithTimeout r.startedAt 100)
        (str "/tmp/missing") ∧
      r.ret.size =
        (getDirSize (exampleEnv 1) 0 (WithTimeout 0 100) (str "/tmp/missing")).size ∧
      r.ret.err =
        (getDirSize (exampleEnv 1) 0 (WithTimeout 0 100) (str "/tmp/missing")).err ∧
      ((NewDirectorySizeExporter
          [⟨str "/tmp/a", str "a"⟩, ⟨str "/tmp/missing", str "b"⟩] 100).Collect
          exampleEnv 0).sent[1]? = some
        { label := str "b",
          value := match r.ret.err with
            | none => r.ret.size
            | some (.pathError _) => 0
            | some .deadlineExceeded => 0 } :=
  Collect_value_of_own_scan
    (NewDirectorySizeExporter
      [⟨str "/tmp/a", str "a"⟩, ⟨str "/tmp/missing", str "b"⟩] 100) exampleEnv 0 1
    ⟨str "/tmp/missing", str "b"⟩ (by decide) (by decide)

/-- C4, as stated, fails: the deadline expires before the walker sends its
result, yet a caller that reaches its `select` after that send finds both cases
ready and may take the result of the walker: with a timeout of zero and a
missing root it returns the I/O error instead of the deadline error, and for a
file whose context check came before the deadline and whose result was sent
after it, it returns the size, which `Collect` reports. -/
theorem getDirSize_late_select_returns_walk_result :
    ((WithTimeout 0 0).deadline <
        sendTime (WithTimeout 0 0) 0 (lateEnv.fs (str "/tmp/missing")) lateEnv.sched ∧
      getDirSize lateEnv 0 (WithTimeout 0 0) (str "/tmp/missing") =
        { size := 0,
          err := some (.pathError "lstat /tmp/missing: no such file or directory"),
          returnedAt := 5 }) ∧
      ((WithTimeout 0 2).deadline <
        sendTime (WithTimeout 0 2) 0 (lateFileEnv.fs (str "/srv/f")) lateFileEnv.sched ∧
      getDirSize lateFileEnv 0 (WithTimeout 0 2) (str "/srv/f") =
        { size := 42, err := none, returnedAt := 9 } ∧
      (NewDirectorySizeExporter [⟨str "/srv/f", str "f"⟩] 2).Collect
          (fun _ => lateFileEnv) 0 =
        { sent := [{ label := str "f", value := 42 }], panicked := false }) := by
  decide

/-- C4 (amended): in every iteration that `Collect` reaches, for every tree and
timeout, when the deadline of the scan expires before the walker has sent its
result: if the caller is at its `select` before that send, `getDirSize` returns
at the deadline (or when the caller reaches the `select`, if later), before the
walker delivers, with size 0 and the deadline error of the context, and the
sample of that target has value 0 when its label is valid UTF-8; if the caller
reaches its `select` only at or after that send, both cases are ready,
`getDirSize` returns when the caller reaches the `select`, with size 0 and the
deadline error when the `select` takes `ctx.Done()`, and with the result of the
walker (size 0 and its error, or `float64(total)` and no error) when it takes
the channel. -/
theorem getDirSize_deadline_first (e : DirectorySizeExporter) (env : Nat → ScanEnv)
    (start : Int) (i : Nat) (r : ScanRecord) (d : Directory)
    (hr : (collectLoop e.timeout env 0 start e.directories)[i]? = some r)
    (hd : e.directories[i]? = some d)
    (hdl : r.ctx.deadline < sendTime r.ctx r.startedAt ((env i).fs d.Path) (env i).sched) :
    r.ret = getDirSize (env i) r.startedAt (WithTimeout r.startedAt e.timeout) d.Path ∧
      (r.startedAt + (env i).sched.selectLag <
          sendTime r.ctx r.startedAt ((env i).fs d.Path) (env i).sched →
        r.ret =
          { size := 0, err := some Err.deadlineExceeded,
            returnedAt := max (r.startedAt + (env i).sched.selectLag)
              (r.startedAt + e.timeout) } ∧
        r.ret.returnedAt < sendTime r.ctx r.startedAt ((env i).fs d.Path) (env i).sched ∧
        (ValidString d.Label = true →
          (e.Collect env start).sent[i]? = some { label := d.Label, value := 0 })) ∧
      (sendTime r.ctx r.startedAt ((env i).fs d.Path) (env i).sched ≤
          r.startedAt + (env i).sched.selectLag →
        r.ret.returnedAt = r.startedAt + (env i).sched.selectLag ∧
        ((env i).sched.pickDone = true →
          r.ret.size = 0 ∧ r.ret.err = some Err.deadlineExceeded) ∧
        ((env i).sched.pickDone = false →
          r.ret.err = (walker r.ctx r.startedAt ((env i).fs d.Path) true).result ∧
          r.ret.size =
            if (walker r.ctx r.startedAt ((env i).fs d.Path) true).result.isSome then 0
            else float64OfInt64
              (walker r.ctx r.startedAt ((env i).fs d.Path) true).state.total)) := by
  obtain ⟨d1, h1, h2, h3, h4⟩ := collectLoop_get e.timeout env e.directories 0 start i r hr
  rw [hd] at h1
  cases h1
  rw [Nat.zero_add] at h3
  have hdeadline : r.ctx.deadline = r.startedAt + e.timeout := by rw [h2]; rfl
  refine ⟨by rw [h3, h2], fun hsel => ?_, fun hlate => ?_⟩
  · have hres := getDirSize_deadline_before_send (env i) r.startedAt r.ctx d.Path hdl hsel
    have hret : r.ret =
        { size := 0, err := some Err.deadlineExceeded,
          returnedAt := max (r.startedAt + (env i).sched.selectLag)
            (r.startedAt + e.timeout) } := by
      rw [h3, hres, hdeadline]
    refine ⟨hret, ?_, fun hv => ?_⟩
    · rw [hret]
      simp only [max_def]
      split_ifs <;> omega
    · show ((collectLoop e.timeout env 0 start e.directories).filterMap
        ScanRecord.sample)[i]? = _
      rw [collectLoop_sent e.timeout env e.directories 0 start i r hr, h4,
        NewConstMetric_valid _ _ hv, hret]
      rfl
  · have hres := getDirSize_late_select (env i) r.startedAt r.ctx d.Path (by omega) hlate
    rw [← h3] at hres
    refine ⟨?_, fun hp => ?_, fun hp => ?_⟩
    · rw [hres]
      rcases (env i).sched.pickDone with _ | _
      · rcases (walker r.ctx r.startedAt ((env i).fs d.Path) true).result with _ | e1 <;> rfl
      · rfl
    · rw [hres, hp]
      exact ⟨rfl, rfl⟩
    · rw [hres, hp]
      rcases (walker r.ctx r.startedAt ((env i).fs d.Path) true).result with _ | e1 <;>
        exact ⟨rfl, rfl⟩

theorem getDirSize_deadline_first_witness :
    ((getDirSize (slowEnv 0) 0 (WithTimeout 0 2) (str "/srv")) =
        { size := 0, err := some Err.deadlineExceeded, returnedAt := 2 } ∧
      ((NewDirectorySizeExporter [⟨str "/srv", str "srv"⟩] 2).Collect slowEnv 0).sent[0]? =
        some { label := str "srv", value := 0 }) ∧
      (lateFileRecord.ret.returnedAt = 0 + lateFileEnv.sched.selectLag ∧
        lateFileRecord.ret.err =
          (walker lateFileRecord.ctx 0 (lateFileEnv.fs (str "/srv/f")) true).result) :=
  have h := getDirSize_deadline_first (NewDirectorySizeExporter [⟨str "/srv", str "srv"⟩] 2)
    slowEnv 0 0
    { startedAt := 0, ctx := { deadline := 2 },
      ret := { size := 0, err := some Err.deadlineExceeded, returnedAt := 2 },
      sample := some { label := str "srv", value := 0 } }
    ⟨str "/srv", str "srv"⟩ (by decide) (by decide) (by decide)
  have h2 := getDirSize_deadline_first (NewDirectorySizeExporter [⟨str "/srv/f", str "f"⟩] 2)
    (fun _ => lateFileEnv) 0 0 lateFileRecord ⟨str "/srv/f", str "f"⟩
    (by decide) (by decide) (by decide)
  ⟨⟨h.1.symm, (h.2.1 (by decide)).2.2 (by decide)⟩,
    ⟨(h2.2.2 (by decide)).1, ((h2.2.2 (by decide)).2.2 (by decide)).1⟩⟩

/-- C5, as stated, fails: the walk of `brokenTree` meets its I/O error at tick
3, with a deadline at tick 10 that has not expired, and stops there; yet
`getDirSize` returns the deadline error, not the error of the entry, when the
caller reaches its `select` only at tick 20 and takes the case `<-ctx.Done()`,
and also when the walker needs until tick 23 to send its result, so that the
deadline is the only ready case at tick 10. -/
theorem getDirSize_deadline_after_entry_error :
    (WithTimeout 0 10).Done (0 + 3) = false ∧
      (walker (WithTimeout 0 10) 0 (brokenLateEnv.fs (str "/srv")) true).result =
        some (.pathError "lstat /srv/b: no such file or directory") ∧
      (walker (WithTimeout 0 10) 0 (brokenLateEnv.fs (str "/srv")) true).state.now = 3 ∧
      getDirSize brokenLateEnv 0 (WithTimeout 0 10) (str "/srv") =
        { size := 0, err := some Err.deadlineExceeded, returnedAt := 20 } ∧
      getDirSize brokenSlowSendEnv 0 (WithTimeout 0 10) (str "/srv") =
        { size := 0, err := some Err.deadlineExceeded, returnedAt := 10 } := by
  decide

/-- C5 (amended): for every tree whose walk order has a first entry with an I/O
error (an entry whose `Lstat` fails or a directory that cannot be read) that the
walker meets before the deadline, the walker stops at that entry with its error
(it has made one callback call per earlier entry plus one, and `total` holds
the bytes of the earlier entries only), and `getDirSize` returns size 0 with an
error, never a size: the error of that entry or the deadline error; it is the
error of that entry whenever the walker sends its result, and the caller
reaches its `select`, before the deadline. -/
theorem getDirSize_stops_at_first_error (env : ScanEnv) (start : Int) (ctx : Context)
    (path : GoString) (pre post : List Visit) (dt : Nat) (err : Err)
    (horder : walkOrder (env.fs path) = pre ++ .failed dt err :: post)
    (hpre : ∀ v ∈ pre, v.err = none)
    (hmet : start + ticks pre + dt < ctx.deadline) :
    (walker ctx start (env.fs path) true).result = some err ∧
      (walker ctx start (env.fs path) true).state.visited = pre.length + 1 ∧
      (walker ctx start (env.fs path) true).state.total = wrapInt64 (bytesOf pre) ∧
      (getDirSize env start ctx path).size = 0 ∧
      ((getDirSize env start ctx path).err = some err ∨
        (getDirSize env start ctx path).err = some Err.deadlineExceeded) ∧
      (start + ticks pre + dt + env.sched.sendLag < ctx.deadline →
        start + env.sched.selectLag < ctx.deadline →
        (getDirSize env start ctx path).err = some err) := by
  have hW := Walk_first_error ctx start (env.fs path) pre post dt err horder hpre hmet
  have hres : (walker ctx start (env.fs path) true).result = some err := by
    simp [walker, hW]
  refine ⟨hres, by simp [walker, hW], by simp [walker, hW], ?_, ?_, fun hlive hsel => ?_⟩
  · rcases getDirSize_cases env start ctx path with hc | hc
    · exact hc.1
    · rw [hc.2, hres]
      rfl
  · rcases getDirSize_cases env start ctx path with hc | hc
    · exact Or.inr hc.2
    · exact Or.inl (hc.1.trans hres)
  · rw [(getDirSize_first_error env start ctx path pre post dt err horder hpre hlive hsel).2]

theorem getDirSize_stops_at_first_error_witness :
    (walker (WithTimeout 0 100) 0 (brokenEnv.fs (str "/srv")) true).result =
        some (.pathError "lstat /srv/b: no such file or directory") ∧
      (walker (WithTimeout 0 100) 0 (brokenEnv.fs (str "/srv")) true).state.visited = 3 ∧
      (walker (WithTimeout 0 100) 0 (brokenEnv.fs (str "/srv")) true).state.total = 10 ∧
      (getDirSize brokenEnv 0 (WithTimeout 0 100) (str "/srv")).size = 0 ∧
      (getDirSize brokenEnv 0 (WithTimeout 0 100) (str "/srv")).err =
        some (.pathError "lstat /srv/b: no such file or directory") :=
  have h := getDirSize_stops_at_first_error brokenEnv 0 (WithTimeout 0 100) (str "/srv")
    [.ok 1 { isDir := true, isRegular := false, size := 4096 },
     .ok 1 { isDir := false, isRegular := true, size := 10 }]
    [.ok 1 { isDir := false, isRegular := true, size := 5 }] 1
    (.pathError "lstat /srv/b: no such file or directory")
    (by decide) (by decide) (by decide)
  ⟨h.1, h.2.1, h.2.2.1, h.2.2.2.1, h.2.2.2.2.2 (by decide) (by decide)⟩

/-- C7: with the targets `/tmp/a` labelled `a` and `/tmp/missing` labelled `b`,
a tree under `/tmp/a` free of I/O errors whose entries that are not directories
are regular files totalling 1024 bytes, a `/tmp/missing` whose `Lstat` fails,
and a timeout longer than either walk with its send and than the time the
caller needs to reach its `select`, `Collect` sends exactly the samples
`(a, 1024)` and `(b, 0)`, in that order, and does not panic. -/
theorem Collect_end_to_end (env : Nat → ScanEnv) (start timeout : Int) (t : Node)
    (dt : Nat) (err : Err)
    (ha : (env 0).fs (str "/tmp/a") = t) (hfree : errorFree t = true)
    (hreg : onlyRegular t = true) (htotal : regularBytes t = 1024)
    (hb : (env 1).fs (str "/tmp/missing") = .missing dt err)
    (hta : (walkTicks t : Int) + (env 0).sched.sendLag < timeout)
    (hla : ((env 0).sched.selectLag : Int) < timeout)
    (htb : (dt : Int) + (env 1).sched.sendLag < timeout)
    (hlb : ((env 1).sched.selectLag : Int) < timeout) :
    (NewDirectorySizeExporter
        [⟨str "/tmp/a", str "a"⟩, ⟨str "/tmp/missing", str "b"⟩] timeout).Collect
        env start =
      { sent := [{ label := str "a", value := 1024 }, { label := str "b", value := 0 }],
        panicked := false } := by
  have h1 := getDirSize_errorFree (env 0) start (WithTimeout start timeout) (str "/tmp/a")
    (by rw [ha]; exact hfree) (by rw [ha]; simp only [WithTimeout]; omega)
    (by simp only [WithTimeout]; omega)
  rw [ha, float64_of_regular_total t hreg (by omega) (by omega), htotal] at h1
  have h2 : ∀ s2 : Int,
      getDirSize (env 1) s2 (WithTimeout s2 timeout) (str "/tmp/missing") =
      { size := 0, err := some err,
        returnedAt := max (s2 + (env 1).sched.selectLag)
          (s2 + ticks [] + dt + (env 1).sched.sendLag) } := by
    intro s2
    exact (getDirSize_first_error (env 1) s2 (WithTimeout s2 timeout) (str "/tmp/missing")
      [] [] dt err (by rw [hb]; rfl) (by simp)
      (by simp only [WithTimeout, ticks_nil]; push_cast; omega)
      (by simp only [WithTimeout]; omega)).2
  have va : ValidString (str "a") = true := ValidString_str _
  have vb : ValidString (str "b") = true := ValidString_str _
  simp only [DirectorySizeExporter.Collect, NewDirectorySizeExporter,
    collectLoop_cons_valid _ _ _ _ ⟨str "/tmp/a", str "a"⟩ _ va,
    collectLoop_cons_valid _ _ _ _ ⟨str "/tmp/missing", str "b"⟩ _ vb, collectLoop, h1, h2]
  rfl

theorem Collect_end_to_end_witness :
    (NewDirectorySizeExporter
        [⟨str "/tmp/a", str "a"⟩, ⟨str "/tmp/missing", str "b"⟩] 100).Collect
        exampleEnv 0 =
      { sent := [{ label := str "a", value := 1024 }, { label := str "b", value := 0 }],
        panicked := false } :=
  Collect_end_to_end exampleEnv 0 100 exampleTree 1
    (.pathError "lstat: no such file or directory")
    (by rfl) (by decide) (by decide) (by decide) (by rfl) (by decide) (by decide)
    (by decide) (by decide)

/-- C9, as stated, fails: with the context already done, the callback called
for an entry whose `Lstat` failed returns the error of that entry, not the
error of the context, and so does the walk of a missing root. -/
theorem walkFn_returns_entry_error_first :
    (WithTimeout 0 0).Done (0 + 1) = true ∧
      (WithTimeout 0 0).Err (0 + 1) = some Err.deadlineExceeded ∧
      (walkFn (WithTimeout 0 0) { total := 0, now := 0, visited := 0 }
        (.failed 1 (.pathError "lstat /srv/b: no such file or directory"))).2 =
        some (.pathError "lstat /srv/b: no such file or directory") ∧
      (walker (WithTimeout 0 0) 0
        (.missing 1 (.pathError "lstat /srv/b: no such file or directory")) false).result ≠
        (WithTimeout 0 0).Err (0 + 1) := by
  decide

/-- C9 (amended): once the context is done, the callback returns an error at
the entry being visited (the error of the entry when it carries one, the error
of the context otherwise); so when the context is done at the check of the
entry of index `k` of the walk order, the walk returns an error after at most
`k + 1` callback calls, and the single send of that result on the channel of
capacity 1 completes without a receiver, leaving exactly that value in the
buffer: the walking task ends. -/
theorem walker_ends_once_context_done (ctx : Context) (start : Int) (t : Node) (k : Nat)
    (hk : k < (walkOrder t).length)
    (hdone : ctx.Done (start + ticks ((walkOrder t).take (k + 1))) = true) :
    (∀ (st : ScanState) (v : Visit), ctx.Done (st.now + v.dt) = true →
        (walkFn ctx st v).2 = some (v.err.getD Err.deadlineExceeded)) ∧
      (walker ctx start t false).result ≠ none ∧
      (walker ctx start t false).state.visited ≤ k + 1 ∧
      (walker ctx start t false).chan =
        some { cap := 1, buf := [(walker ctx start t false).result] } := by
  have h := runVisits_done ctx k (walkOrder t) { total := 0, now := start, visited := 0 } hk
    (by simpa [Context.Done] using hdone)
  refine ⟨?_, ?_, ?_, ?_⟩
  · intro st v hv
    cases v with
    | ok dt info =>
        simp only [Visit.dt, Context.Done, decide_eq_true_eq] at hv
        simp [walkFn_ok, hv, Visit.err]
    | failed dt err => simp [walkFn, Visit.err]
  · simp only [walker, Walk_eq_runVisits]
    exact h.1
  · simp only [walker, Walk_eq_runVisits]
    simpa using h.2
  · simp [walker, Chan.send, Chan.make]

theorem walker_ends_once_context_done_witness :
    (walker (WithTimeout 0 2) 0 slowTree false).result = some Err.deadlineExceeded ∧
      (walker (WithTimeout 0 2) 0 slowTree false).state.visited ≤ 1 + 1 ∧
      (walker (WithTimeout 0 2) 0 slowTree false).chan =
        some { cap := 1, buf := [some Err.deadlineExceeded] } :=
  have h := walker_ends_once_context_done (WithTimeout 0 2) 0 slowTree 1 (by decide)
    (by decide)
  ⟨by decide, h.2.2.1, by decide⟩

/-- C10: `getDirSize` returns a successful size only if the tree is free of I/O
errors and the context was not yet done at the check made after every entry of
the walk; and when the context is already expired at the start of the scan,
`getDirSize` returns an error and size 0 for every tree and under every
scheduling choice of its `select`. -/
theorem getDirSize_success_only_before_deadline (env : ScanEnv) (start : Int)
    (ctx : Context) (path : GoString) :
    ((getDirSize env start ctx path).err = none →
        errorFree (env.fs path) = true ∧
        ∀ k, k < (walkOrder (env.fs path)).length →
          ctx.Done (start + ticks ((walkOrder (env.fs path)).take (k + 1))) = false) ∧
      (ctx.Done start = true →
        (getDirSize env start ctx path).err ≠ none ∧
        (getDirSize env start ctx path).size = 0) := by
  constructor
  · intro h
    have hw := getDirSize_err_none env start ctx path h
    rw [Walk_eq_runVisits] at hw
    obtain ⟨h1, h2, _⟩ := runVisits_none ctx (walkOrder (env.fs path)) _ hw
    refine ⟨walkOrder_errorFree _ h1, fun k _ => ?_⟩
    have hlt := h2 (walkOrder_ne_nil _)
    have hle := ticks_take_le (walkOrder (env.fs path)) (k + 1)
    simp only at hlt
    simp only [Context.Done, decide_eq_false_iff_not]
    omega
  · intro hexp
    simp only [Context.Done, decide_eq_true_eq] at hexp
    apply getDirSize_of_walk_error
    rw [Walk_eq_runVisits]
    have hpos : 0 < (walkOrder (env.fs path)).length :=
      List.length_pos.mpr (walkOrder_ne_nil _)
    exact (runVisits_done ctx 0 (walkOrder (env.fs path))
      { total := 0, now := start, visited := 0 } hpos (by simp only; omega)).1

theorem getDirSize_success_only_before_deadline_witness :
    ((getDirSize (exampleEnv 0) 0 (WithTimeout 0 100) (str "/tmp/a")).err = none ∧
        (WithTimeout 0 100).Done
          ((0 : Int) + ticks ((walkOrder ((exampleEnv 0).fs (str "/tmp/a"))).take (3 + 1))) =
          false) ∧
      (WithTimeout 7 0).Done 7 = true ∧
      (getDirSize fileEnv 7 (WithTimeout 7 0) (str "/srv/f")).err ≠ none ∧
      (getDirSize fileEnv 7 (WithTimeout 7 0) (str "/srv/f")).size = 0 :=
  ⟨⟨by decide,
      ((getDirSize_success_only_before_deadline (exampleEnv 0) 0 (WithTimeout 0 100)
        (str "/tmp/a")).1 (by decide)).2 3 (by decide)⟩,
    by decide,
    (getDirSize_success_only_before_deadline fileEnv 7 (WithTimeout 7 0) (str "/srv/f")).2
      (by decide)⟩

end DeezBytes
